import Mathlib

/-!  Verification of the trips lottery allocation engine (`ws/lottery.py`).

This file gives a shallow embedding of the lottery engine: the data model
(participants, trips, signups, waitlist), the season ranker, the participant
handlers, and the two lottery runners, together with proofs of the stated
properties.

Modelling conventions:
* Python exceptions are modelled by `Option` (`none` means the corresponding
  Python call raises).
* Database rows are records; the mutable store is a `DB` record passed
  explicitly.  Saving a row writes it back into the corresponding list.
* `random.random()` draws are injected: every function that ranks by the
  affiliation-weighted random value receives a map from participant primary
  keys to draws.  Floating point numbers are modelled in fixed point
  (hundredths) over `Int`: the weight `0.3` becomes `30` and a draw is an
  arbitrary integer standing for a real in `[0, 100)`.  Only the ordering of
  the weighted values is ever consumed, and it is preserved by this encoding.
* The run-scoped logger is a list of strings accumulated in the run state;
  the exact rendering of Django objects inside messages is abbreviated
  (only the single-trip runner ever persists its log).
-/

/-- Affiliation codes, exactly the keys of the weight table in
`affiliation_weighted_rand`. -/
inductive Affiliation
  | MU | MG | MA | NU | NG | NA | M | N | S
deriving DecidableEq, Repr

/-- Car status choices on a lottery form (`'none'`, `'own'`, `'rent'`). -/
inductive CarStatus
  | none | own | rent
deriving DecidableEq, Repr

/-- `models.LotteryInfo`: the car status and the one-way pairing reference
(`paired_with`, a participant primary key). -/
structure LotteryInfo where
  car_status : CarStatus
  paired_with : Option Nat
deriving DecidableEq, Repr

/-- Modelled from the spec: `models.LotteryInfo.is_driver` (the model class is
outside the given sources); per 4.4 of the spec a participant is a driver iff
their car status is `own` or `rent`. -/
def LotteryInfo.is_driver (li : LotteryInfo) : Bool :=
  match li.car_status with
  | .own => true
  | .rent => true
  | .none => false

/-- One past trip of a participant, as seen by the season ranker: its date,
its activity, the `showed_up` flags of the leader feedback filed for this
participant on this trip (`feedback_set.filter(trip=trip)`), and whether the
participant's signup for it was `on_trip`. -/
structure HistTrip where
  trip_date : Int
  activity : String
  feedback : List Bool
  on_trip : Bool
deriving DecidableEq, Repr

/-- `models.Participant`, restricted to the fields the engine reads.
`hist` is the participant's `trip_set` (with the per-trip feedback flattened
in), `trips_led_dates` the dates of the trips in `trips_led`. -/
structure Participant where
  pk : Nat
  name : String
  affiliation : Affiliation
  lotteryinfo : Option LotteryInfo
  hist : List HistTrip
  trips_led_dates : List Int
deriving DecidableEq, Repr

/-- Trip allocation mode (`Trip.algorithm`). -/
inductive Algorithm
  | lottery | fcfs
deriving DecidableEq, Repr

/-- `models.Trip`, restricted to the fields the engine reads or writes.
`leaders` are participant primary keys. -/
structure Trip where
  pk : Nat
  name : String
  trip_date : Int
  activity : String
  algorithm : Algorithm
  maximum_participants : Nat
  leaders : List Nat
  honor_participant_pairing : Bool
  lottery_log : String
  signups_open_at : Int
deriving DecidableEq, Repr

/-- `models.SignUp`: participant and trip are referenced by primary key. -/
structure SignUp where
  pk : Nat
  participant : Nat
  trip : Nat
  on_trip : Bool
  last_updated : Int
  order : Int
  time_created : Int
deriving DecidableEq, Repr

/-- The store the engine reads and mutates.  `waitlist` is the external
waitlist, a queue of signup primary keys (head of the list = head of the
queue). -/
structure DB where
  participants : List Participant
  trips : List Trip
  signups : List SignUp
  waitlist : List Nat
deriving DecidableEq, Repr

def DB.findPar (db : DB) (pk : Nat) : Option Participant :=
  db.participants.find? (fun p => p.pk == pk)

def DB.findTrip (db : DB) (pk : Nat) : Option Trip :=
  db.trips.find? (fun t => t.pk == pk)

/-- `models.SignUp.objects.get(participant=..., trip=...)` (first match). -/
def DB.findSignup (db : DB) (parPk tripPk : Nat) : Option SignUp :=
  db.signups.find? (fun s => s.participant == parPk && s.trip == tripPk)

/-- The signups of a trip (`trip.signup_set`). -/
def DB.tripSignups (db : DB) (tripPk : Nat) : List SignUp :=
  db.signups.filter (fun s => s.trip == tripPk)

/-- The seated signups of a trip (`trip.signup_set.filter(on_trip=True)`). -/
def DB.onTripSignups (db : DB) (tripPk : Nat) : List SignUp :=
  db.signups.filter (fun s => s.trip == tripPk && s.on_trip)

/-- Modelled from the spec: `models.Trip.open_slots` (outside the given
sources); per 3 of the spec it is the remaining capacity, that is the
maximum number of participants minus the number of seated signups. -/
def DB.open_slots (db : DB) (t : Trip) : Nat :=
  t.maximum_participants - (db.onTripSignups t.pk).length

/-- Set the `on_trip` flag of the signup with the given primary key and save
it. -/
def DB.setOnTrip (db : DB) (signupPk : Nat) (b : Bool) : DB :=
  { db with
    signups := db.signups.map (fun s =>
      if s.pk == signupPk then { s with on_trip := b } else s) }

/-- `par_is_driver`: `False` when there is no lottery form submission
(the `AttributeError` branch). -/
def par_is_driver (p : Participant) : Bool :=
  match p.lotteryinfo with
  | some li => li.is_driver
  | none => false

/-- `participant.lotteryinfo.paired_with`, `None`-safe as in the
`paired_par` property. -/
def pairedParOf (db : DB) (p : Participant) : Option Participant :=
  match p.lotteryinfo with
  | none => none
  | some li =>
    match li.paired_with with
    | none => none
    | some qpk => db.findPar qpk

/-- Modelled from the spec: `lotteryinfo.reciprocally_paired_with` (a model
property outside the given sources); per 3 of the spec a pairing is honored
only if both participants name each other.  `reciprocally_paired` is falsy
when there is no lottery form submission. -/
def reciprocally_paired (db : DB) (p : Participant) : Bool :=
  match p.lotteryinfo with
  | none => false
  | some li =>
    match li.paired_with with
    | none => false
    | some qpk =>
      match db.findPar qpk with
      | none => false
      | some q =>
        match q.lotteryinfo with
        | none => false
        | some qli => qli.paired_with == some p.pk

/-- The weight table of `affiliation_weighted_rand`, in fixed point
(hundredths): `'MU': 0.3` becomes `30`, and so on. -/
def affiliation_weight : Affiliation → Int
  | .MU => 30
  | .MG => 20
  | .MA => 10
  | .NU => 0
  | .NG => 0
  | .NA => 0
  | .M => 10
  | .N => 0
  | .S => 0

/-- `affiliation_weighted_rand`, with the `random.random()` draw injected as
`r` (in fixed-point hundredths). -/
def affiliation_weighted_rand (r : Int) (a : Affiliation) : Int :=
  r - affiliation_weight a

/-- The state the `WinterSchoolParticipantRanker` constructor captures
(`local_date`, `jan_1`), plus the injected random draws by participant
primary key. -/
structure RankerCtx where
  today : Int
  jan_1st : Int
  rand : Nat → Int

/-- `past_ws_trips`: past Winter School trips the participant has been on
this year. -/
def past_ws_trips (ctx : RankerCtx) (p : Participant) : List HistTrip :=
  p.hist.filter (fun t =>
    decide (ctx.jan_1st < t.trip_date) && decide (t.trip_date < ctx.today) &&
    decide (t.activity = "winter_school"))

/-- `flake_factor`: +5 per past trip where some leader reported a flake, −2
per past trip where every leader confirmed attendance, 0 for trips without
feedback. -/
def flake_factor (ctx : RankerCtx) (p : Participant) : Int :=
  (past_ws_trips ctx p).foldl
    (fun score t =>
      if t.feedback.isEmpty then score
      else if t.feedback.all (fun b => b) then score - 2 else score + 5)
    0

/-- `number_trips_led`: trips led in the last 365 days. -/
def number_trips_led (ctx : RankerCtx) (p : Participant) : Nat :=
  (p.trips_led_dates.filter (fun d => decide (ctx.today - 365 < d))).length

/-- `number_ws_trips`: seated signups among this season's past trips. -/
def number_ws_trips (ctx : RankerCtx) (p : Participant) : Nat :=
  ((past_ws_trips ctx p).filter (fun t => t.on_trip)).length

/-- `trips_led_balance`: the surplus of trips led over trips taken, clamped
at zero. -/
def trips_led_balance (ctx : RankerCtx) (p : Participant) : Int :=
  max ((number_trips_led ctx p : Int) - (number_ws_trips ctx p : Int)) 0

/-- The 3-key sorting tuple of `priority_key`. -/
abbrev Key := Int × Int × Int

/-- `priority_key`: `(max(flake_factor, 0), -trips_led_balance,
affiliation_weighted_rand)`. -/
def priority_key (ctx : RankerCtx) (p : Participant) : Key :=
  (max (flake_factor ctx p) 0,
   -(trips_led_balance ctx p),
   affiliation_weighted_rand (ctx.rand p.pk) p.affiliation)

/-- Lexicographic order on the 3-key tuples (Python tuple `<=`). -/
def keyLe (a b : Key) : Prop :=
  a.1 < b.1 ∨ (a.1 = b.1 ∧
    (a.2.1 < b.2.1 ∨ (a.2.1 = b.2.1 ∧ a.2.2 ≤ b.2.2)))

/-- Lexicographic strict order on the 3-key tuples (Python tuple `<`). -/
def keyLt (a b : Key) : Prop :=
  a.1 < b.1 ∨ (a.1 = b.1 ∧
    (a.2.1 < b.2.1 ∨ (a.2.1 = b.2.1 ∧ a.2.2 < b.2.2)))

instance : DecidableRel keyLe := fun a b => by
  unfold keyLe; infer_instance

instance : DecidableRel keyLt := fun a b => by
  unfold keyLt; infer_instance

/-- The participant order used by `WinterSchoolParticipantRanker.__iter__`:
ascending `priority_key`. -/
def wsParLe (ctx : RankerCtx) (a b : Participant) : Prop :=
  keyLe (priority_key ctx a) (priority_key ctx b)

instance (ctx : RankerCtx) : DecidableRel (wsParLe ctx) := fun a b => by
  unfold wsParLe; infer_instance

/-- `WinterSchoolParticipantRanker.__iter__`:
`sorted(Participant.objects.all(), key=priority_key)`. -/
def ws_ranked (ctx : RankerCtx) (db : DB) : List Participant :=
  List.insertionSort (wsParLe ctx) db.participants

/-- The per-run mutable state of a `LotteryRunner` together with the store it
drives: the accumulated log lines, the run-scoped `participants_handled`
map, and a ghost event list `marks` recording every `mark_handled` call
(used only to state run-scoped properties, never read by the engine). -/
structure EngSt where
  db : DB
  log : List String
  handled : List (Nat × Bool)
  marks : List Nat
deriving DecidableEq, Repr

def EngSt.logInfo (st : EngSt) (msg : String) : EngSt :=
  { st with log := st.log ++ [msg] }

/-- `LotteryRunner.handled`: look up the run-scoped resolution map. -/
def EngSt.isHandled (st : EngSt) (pk : Nat) : Bool :=
  match st.handled.find? (fun e => e.1 == pk) with
  | some e => e.2
  | none => false

/-- `LotteryRunner.mark_handled` (with `handled=True`): update the map and
record the call in the ghost event list. -/
def EngSt.markHandled (st : EngSt) (pk : Nat) : EngSt :=
  { st with handled := (pk, true) :: st.handled, marks := st.marks ++ [pk] }

/-- The per-participant state a `ParticipantHandler` fixes at construction:
the subject, the driver quota, whether pairing is honored in this context,
and the values of the `paired` / `paired_par` properties (both depend only
on store data no lottery run ever mutates). -/
structure Handler where
  participant : Participant
  min_drivers : Nat
  allow_pairs : Bool
  paired : Bool
  paired_par : Option Participant
deriving Repr

/-- `ParticipantHandler.to_be_placed`. -/
def Handler.to_be_placed (h : Handler) : List Participant :=
  if h.paired && h.allow_pairs then h.participant :: h.paired_par.toList
  else [h.participant]

/-- `ParticipantHandler.slots_needed = len(to_be_placed)`. -/
def Handler.slots_needed (h : Handler) : Nat := h.to_be_placed.length

/-- `ParticipantHandler.is_driver`. -/
def Handler.is_driver (h : Handler) : Bool := h.to_be_placed.any par_is_driver

/-- `ParticipantHandler.par_text`. -/
def Handler.par_text (h : Handler) : String :=
  String.intercalate " + " (h.to_be_placed.map (fun p => p.name))

/-- The filter `is_driver_q`:
`participant__lotteryinfo__car_status__in=['own', 'rent']`. -/
def signup_is_driver (db : DB) (s : SignUp) : Bool :=
  match db.findPar s.participant with
  | some p => par_is_driver p
  | none => false

/-- The `no_car` filter of `lowest_non_driver`: lottery info absent, or car
status `'none'`. -/
def signup_no_car (db : DB) (s : SignUp) : Bool :=
  match db.findPar s.participant with
  | some p =>
    match p.lotteryinfo with
    | none => true
    | some li =>
      match li.car_status with
      | .none => true
      | .own => false
      | .rent => false
  | none => true

/-- `ParticipantHandler.count_drivers_on_trip`: seated driver signups plus
leaders with lottery info who are drivers. -/
def count_drivers_on_trip (db : DB) (trip : Trip) : Nat :=
  ((db.onTripSignups trip.pk).filter (signup_is_driver db)).length +
    (((trip.leaders.filterMap db.findPar).filter
        (fun l => l.lotteryinfo.isSome)).filter par_is_driver).length

/-- Modelled from the spec: `ws.utils.signups.add_to_waitlist` (outside the
given sources); per 3 and 6 of the spec the waitlist service takes the
signup off active status and inserts it at the tail by default, at the head
when `prioritize` is set. -/
def add_to_waitlist (db : DB) (su : SignUp) (prioritize : Bool) : DB :=
  let db1 := db.setOnTrip su.pk false
  if prioritize then { db1 with waitlist := su.pk :: db1.waitlist }
  else { db1 with waitlist := db1.waitlist ++ [su.pk] }

/-- `place_on_trip`: log the placement, set `on_trip`, save. -/
def EngSt.place_on_trip (st : EngSt) (su : SignUp) : EngSt :=
  let tn := match st.db.findTrip su.trip with
    | some t => t.name
    | none => ""
  let n := match st.db.findTrip su.trip with
    | some t => st.db.open_slots t
    | none => 0
  let slotsWord := if n == 1 then " slot" else "slots"
  let pn := match st.db.findPar su.participant with
    | some p => p.name
    | none => ""
  let st1 := st.logInfo (tn ++ " has " ++ toString n ++ " " ++ slotsWord ++ ", adding " ++ pn)
  { st1 with db := st1.db.setOnTrip su.pk true }

/-- `ParticipantHandler.place_all_on_trip`; `none` models
`SignUp.objects.get` raising on a missing partner signup. -/
def place_all_on_trip (h : Handler) (st : EngSt) (su : SignUp) : Option EngSt :=
  let st1 := st.place_on_trip su
  if h.paired then
    match h.paired_par with
    | none => none
    | some q =>
      match st1.db.findSignup q.pk su.trip with
      | none => none
      | some ps => some (st1.place_on_trip ps)
  else some st1

/-- `ParticipantHandler.try_to_place`.  The bump-target selector is the
owning runner's `participant_to_bump`, passed in as `selector`.  `none`
models an uncaught Python exception. -/
def try_to_place (selector : DB → Trip → Option SignUp) (h : Handler)
    (st : EngSt) (su : SignUp) : Option (EngSt × Bool) :=
  match st.db.findTrip su.trip with
  | none => none
  | some trip =>
    if h.slots_needed ≤ st.db.open_slots trip then
      (place_all_on_trip h st su).map (fun st1 => (st1, true))
    else if h.is_driver && st.db.open_slots trip == 0 && !h.paired then
      if count_drivers_on_trip st.db trip < h.min_drivers then
        let st1 := st.logInfo (trip.name ++ " is full, but does not have " ++
          toString h.min_drivers ++ " drivers")
        let st2 := st1.logInfo ("Adding " ++ h.participant.name ++ " to " ++
          trip.name ++ ", as they are a driver")
        match selector st2.db trip with
        | none => none
        | some bump =>
          let st3 := { st2 with db := add_to_waitlist st2.db bump true }
          let st4 := st3.logInfo ("Moved the bumped signup to the top of the waitlist")
          some ({ st4 with db := st4.db.setOnTrip su.pk true }, true)
      else some (st, false)
    else some (st, false)

/-- `LotteryRunner.participant_to_bump` (the default selector): the seated
signup with the greatest `last_updated`, that is the first row of
`order_by('-last_updated')`; `None` when nobody is seated. -/
def participant_to_bump_default (db : DB) (trip : Trip) : Option SignUp :=
  match db.onTripSignups trip.pk with
  | [] => none
  | a :: l => some (l.foldl (fun m x => if m.last_updated < x.last_updated then x else m) a)

/-- Python `max(xs, key=f)` over a nonempty list `a :: l`: the first element
with the greatest key. -/
def maxByKey {α : Type} (f : α → Key) (a : α) (l : List α) : α :=
  l.foldl (fun m x => if keyLt (f m) (f x) then x else m) a

/-- The priority key of a signup's participant (a dangling participant
reference cannot arise through Django; it gets a neutral key). -/
def signupKey (ctx : RankerCtx) (db : DB) (s : SignUp) : Key :=
  match db.findPar s.participant with
  | some p => priority_key ctx p
  | none => (0, 0, 0)

/-- `WinterSchoolParticipantRanker.lowest_non_driver`: among the seated
non-drivers of the trip, the one with the greatest 3-key tuple; `none`
models the `ValueError` of `max` over an empty sequence. -/
def lowest_non_driver (ctx : RankerCtx) (db : DB) (trip : Trip) : Option SignUp :=
  match (db.onTripSignups trip.pk).filter (signup_no_car db) with
  | [] => none
  | a :: l => some (maxByKey (signupKey ctx db) a l)

/-- `WinterSchoolParticipantHandler.__init__`:
`min_drivers=2, allow_pairs=True`. -/
def mkWSHandler (db : DB) (p : Participant) : Handler :=
  { participant := p, min_drivers := 2, allow_pairs := true,
    paired := reciprocally_paired db p, paired_par := pairedParOf db p }

/-- `SingleTripParticipantHandler.paired`: reciprocally paired, and the
partner holds a signup for this very trip. -/
def singleTripPaired (db : DB) (trip : Trip) (p : Participant) : Bool :=
  reciprocally_paired db p &&
    (match pairedParOf db p with
     | some q => db.signups.any (fun s => s.trip == trip.pk && s.participant == q.pk)
     | none => false)

/-- `SingleTripParticipantHandler.__init__`:
`min_drivers=0, allow_pairs=trip.honor_participant_pairing`. -/
def mkSingleTripHandler (db : DB) (trip : Trip) (p : Participant) : Handler :=
  { participant := p, min_drivers := 0,
    allow_pairs := trip.honor_participant_pairing,
    paired := singleTripPaired db trip p, paired_par := pairedParOf db p }

/-- The failed-placement fallback of
`SingleTripParticipantHandler.place_participant`: waitlist every member of
`to_be_placed`, tail insertion. -/
def stWaitlistAll (trip : Trip) : EngSt → List Participant → Option EngSt
  | st, [] => some st
  | st, par :: rest =>
    let st1 := st.logInfo ("Adding " ++ par.name ++ " to the waitlist")
    match st1.db.findSignup par.pk trip.pk with
    | none => none
    | some s => stWaitlistAll trip { st1 with db := add_to_waitlist st1.db s false } rest

/-- The placement-or-waitlist body of
`SingleTripParticipantHandler.place_participant` (after the pairing
deferral check). -/
def stPlaceCore (trip : Trip) (p : Participant) (h : Handler) (st1 : EngSt) : Option EngSt :=
  match st1.db.findSignup p.pk trip.pk with
  | none => none
  | some su =>
    match try_to_place participant_to_bump_default h st1 su with
    | none => none
    | some (st2, true) => some (st2.markHandled p.pk)
    | some (st2, false) =>
      match stWaitlistAll trip st2 h.to_be_placed with
      | none => none
      | some st3 => some (st3.markHandled p.pk)

/-- `SingleTripParticipantHandler.place_participant`. -/
def stPlaceParticipant (trip : Trip) (p : Participant) (st : EngSt) : Option EngSt :=
  let h := mkSingleTripHandler st.db trip p
  if h.paired then
    match h.paired_par with
    | none => none
    | some q =>
      let st1 := st.logInfo (p.name ++ " is paired with " ++ q.name)
      if ! st1.isHandled q.pk then
        some ((st1.logInfo ("Will handle signups when " ++ q.name ++ " comes")).markHandled p.pk)
      else stPlaceCore trip p h st1
  else stPlaceCore trip p h st

/-- The `order_by('order', 'time_created')` relation. -/
def signupOrdLe (a b : SignUp) : Prop :=
  a.order < b.order ∨ (a.order = b.order ∧ a.time_created ≤ b.time_created)

instance : DecidableRel signupOrdLe := fun a b => by
  unfold signupOrdLe; infer_instance

/-- `WinterSchoolParticipantHandler.future_signups`: the subject's lottery
signups for future Winter School trips, restricted to trips the partner also
signed up for when paired, ordered by stated preference then creation
time. -/
def future_signups (today : Int) (db : DB) (h : Handler) : List SignUp :=
  let base := db.signups.filter (fun s =>
    s.participant == h.participant.pk &&
    (match db.findTrip s.trip with
     | some t =>
       decide (today < t.trip_date) && decide (t.algorithm = Algorithm.lottery) &&
         decide (t.activity = "winter_school")
     | none => false))
  let base1 :=
    if h.paired then
      match h.paired_par with
      | some q => base.filter (fun s =>
          db.signups.any (fun s2 => s2.participant == q.pk && s2.trip == s.trip))
      | none => base
    else base
  List.insertionSort signupOrdLe base1

/-- The placement loop of `WinterSchoolParticipantHandler.place_participant`:
first-choice-first attempts, stopping at the first success.  The resulting
Boolean tells whether the `for` loop broke (`true`) or fell through to its
`else` clause (`false`). -/
def wsPlaceLoop (ctx : RankerCtx) (h : Handler) :
    EngSt → List SignUp → Option (EngSt × Bool)
  | st, [] => some (st, false)
  | st, su :: rest =>
    match try_to_place (lowest_non_driver ctx) h st su with
    | none => none
    | some (st1, true) => some (st1, true)
    | some (st1, false) =>
      let tn := match st1.db.findTrip su.trip with
        | some t => t.name
        | none => ""
      wsPlaceLoop ctx h (st1.logInfo ("Cannot place " ++ h.par_text ++ " on " ++ tn)) rest

/-- The no-trip-open fallback of
`WinterSchoolParticipantHandler.place_participant`: waitlist every member of
`to_be_placed` on the most preferred trip, tail insertion. -/
def wsWaitlistAll (h : Handler) (favTrip : Nat) (tn : String) :
    EngSt → List Participant → Option EngSt
  | st, [] => some st
  | st, par :: rest =>
    match st.db.findSignup par.pk favTrip with
    | none => none
    | some fsu =>
      let st1 := { st with db := add_to_waitlist st.db fsu false }
      wsWaitlistAll h favTrip tn (st1.logInfo ("Waitlisted " ++ h.par_text ++ " on " ++ tn)) rest

/-- The placement-or-waitlist body of
`WinterSchoolParticipantHandler.place_participant` (after the pairing
deferral check). -/
def wsPlaceCore (ctx : RankerCtx) (p : Participant) (h : Handler) (st1 : EngSt) : Option EngSt :=
  let fs := future_signups ctx.today st1.db h
  if fs.isEmpty then
    some ((st1.logInfo (h.par_text ++ " did not choose any trips this week")).markHandled p.pk)
  else
    match wsPlaceLoop ctx h st1 fs with
    | none => none
    | some (st2, true) => some (st2.markHandled p.pk)
    | some (st2, false) =>
      match fs with
      | [] => none
      | fav :: _ =>
        let tn := match st2.db.findTrip fav.trip with
          | some t => t.name
          | none => ""
        let st3 := st2.logInfo ("No trips are open for " ++ h.par_text)
        match wsWaitlistAll h fav.trip tn st3 h.to_be_placed with
        | none => none
        | some st4 => some (st4.markHandled p.pk)

/-- `WinterSchoolParticipantHandler.place_participant`.  The `future_signups`
property is evaluated once; between its uses the loop only runs failed
placements, which leave the store untouched, so the snapshot is faithful. -/
def wsPlaceParticipant (ctx : RankerCtx) (p : Participant) (st : EngSt) : Option EngSt :=
  let h := mkWSHandler st.db p
  if h.paired then
    match h.paired_par with
    | none => none
    | some q =>
      let st1 := st.logInfo (p.name ++ " is paired with " ++ q.name)
      if ! st1.isHandled q.pk then
        some ((st1.logInfo ("Will handle signups when " ++ q.name ++ " comes")).markHandled p.pk)
      else wsPlaceCore ctx p h st1
  else wsPlaceCore ctx p h st

/-- `WinterSchoolLotteryRunner.assign_trips`. -/
def wsAssignTrips (ctx : RankerCtx) : EngSt → List Participant → Option EngSt
  | st, [] => some st
  | st, p :: rest =>
    let head := "Handling " ++ p.name
    let st1 := (st.logInfo head).logInfo (String.mk (List.replicate head.length '-'))
    match wsPlaceParticipant ctx p st1 with
    | none => none
    | some st2 => wsAssignTrips ctx st2 rest

/-- `WinterSchoolLotteryRunner.free_for_all`: flip every remaining
winter-school lottery trip to first-come, first-serve.  `Trip.make_fcfs` is
modelled from the spec (outside the given sources): it sets the algorithm to
FCFS and the reopening time to its argument; the value of the external
helper `closest_wed_at_noon` is passed in as `noon`. -/
def free_for_all (noon : Int) (st : EngSt) : EngSt :=
  let st1 := st.logInfo ("Making all lottery trips first-come, first-serve")
  { st1 with db := { st1.db with trips := st1.db.trips.map (fun t =>
      if decide (t.activity = "winter_school") && decide (t.algorithm = Algorithm.lottery) then
        { t with algorithm := Algorithm.fcfs, signups_open_at := noon }
      else t) } }

/-- `WinterSchoolLotteryRunner.__call__`: assign trips, then the
free-for-all conversion. -/
def wsRun (ctx : RankerCtx) (noon : Int) (db : DB) : Option EngSt :=
  match wsAssignTrips ctx { db := db, log := [], handled := [], marks := [] } (ws_ranked ctx db) with
  | none => none
  | some st => some (free_for_all noon st)

/-- The single-trip ranking relation, ascending affiliation-weighted random
value (`SingleTripLotteryRunner.ranked_participants`). -/
def stParLe (rand : Nat → Int) (a b : Participant) : Prop :=
  affiliation_weighted_rand (rand a.pk) a.affiliation ≤
    affiliation_weighted_rand (rand b.pk) b.affiliation

instance (rand : Nat → Int) : DecidableRel (stParLe rand) := fun a b => by
  unfold stParLe; infer_instance

/-- Modelled from the spec: `get_affiliation_display` is Django machinery
(outside the given sources); the engine only interpolates its value into a
log line. -/
def affiliationDisplay : Affiliation → String
  | .MU => "MIT undergrad"
  | .MG => "MIT grad student"
  | .MA => "MIT affiliate"
  | .NU => "Non-MIT undergrad"
  | .NG => "Non-MIT grad student"
  | .NA => "Non-affiliate"
  | .M => "MIT member"
  | .N => "Non-MIT member"
  | .S => "Student"

def padL (s : String) (n : Nat) : String :=
  String.mk (List.replicate (n - s.length) ' ') ++ s

def padR (s : String) (n : Nat) : String :=
  s ++ String.mk (List.replicate (n - s.length) ' ')

/-- The roster lines `f"{i:3}. {par.name:{max_len + 3}} ({affiliation})"`. -/
def rosterLines (maxLen : Nat) (ranked : List Participant) : List String :=
  (List.range ranked.length).zipWith (fun i p =>
    padL (toString (i + 1)) 3 ++ ". " ++ padR p.name (maxLen + 3) ++ " (" ++
      affiliationDisplay p.affiliation ++ ")") ranked

/-- `StreamHandler` output: every record is terminated by a newline. -/
def logText (l : List String) : String :=
  String.join (l.map (fun s => s ++ "\n"))

/-- The handling loop of `SingleTripLotteryRunner.__call__`. -/
def stRunAll (trip : Trip) : EngSt → List Participant → Option EngSt
  | st, [] => some st
  | st, p :: rest =>
    match stPlaceParticipant trip p st with
    | none => none
    | some st1 => stRunAll trip st1 rest

/-- `SingleTripLotteryRunner.__call__`.  Returns the final store and the
accumulated log lines; `none` models an uncaught exception (for instance the
`ValueError` of `max` over the name lengths of an empty roster). -/
def singleTripRun (rand : Nat → Int) (trip : Trip) (db : DB) : Option (DB × List String) :=
  if trip.algorithm = Algorithm.lottery then
    let pars := (db.signups.filter (fun s => s.trip == trip.pk)).filterMap
      (fun s => db.findPar s.participant)
    let ranked := List.insertionSort (stParLe rand) pars
    match ranked with
    | [] => none
    | _ =>
      let maxLen := (ranked.map (fun p => p.name.length)).foldl max 0
      let header :=
        ["Randomly ordering (preference to MIT affiliates)...",
         "Participants will be handled in the following order:"] ++
        rosterLines maxLen ranked ++ [String.mk (List.replicate 50 '-')]
      match stRunAll trip { db := db, log := header, handled := [], marks := [] } ranked with
      | none => none
      | some st =>
        let fin := { st.db with trips := st.db.trips.map (fun t =>
          if t.pk == trip.pk then
            { trip with algorithm := Algorithm.fcfs, lottery_log := logText st.log }
          else t) }
        some (fin, st.log)
  else some (db, [])

/-- Observable: is the participant seated on the trip (some signup of theirs
for this trip has `on_trip`)? -/
def seatedOn (db : DB) (parPk tripPk : Nat) : Bool :=
  db.signups.any (fun s => s.participant == parPk && s.trip == tripPk && s.on_trip)

/-- Observable: the `on_trip` flag of the signup with the given primary key
(`false` if absent). -/
def signupSeated (db : DB) (signupPk : Nat) : Bool :=
  db.signups.any (fun s => s.pk == signupPk && s.on_trip)

/-- Observable frame view: the signup table with the rows at the two given
primary keys masked out (used to state that a placement touched nothing
else). -/
def signupsExcept (l : List SignUp) (pk1 pk2 : Nat) : List SignUp :=
  l.filter (fun s => !(s.pk == pk1) && !(s.pk == pk2))

/-- A mirror of the `wsAssignTrips` loop that also checks, at each step, that
the participant about to be handled has not been resolved yet. -/
def wsAllFresh (ctx : RankerCtx) : EngSt → List Participant → Bool
  | _, [] => true
  | st, p :: rest =>
    let head := "Handling " ++ p.name
    let st1 := (st.logInfo head).logInfo (String.mk (List.replicate head.length '-'))
    !(st1.isHandled p.pk) &&
      (match wsPlaceParticipant ctx p st1 with
       | some st2 => wsAllFresh ctx st2 rest
       | none => false)

/-- A mirror of the `stRunAll` loop that also checks, at each step, that the
participant about to be handled has not been resolved yet. -/
def stAllFresh (trip : Trip) : EngSt → List Participant → Bool
  | _, [] => true
  | st, p :: rest =>
    !(st.isHandled p.pk) &&
      (match stPlaceParticipant trip p st with
       | some st1 => stAllFresh trip st1 rest
       | none => false)

/-- What a placement step can never touch: the trip and participant tables,
and the runner's resolution state. -/
def RunnerFrame (st st1 : EngSt) : Prop :=
  st1.db.trips = st.db.trips ∧ st1.db.participants = st.db.participants ∧
  st1.handled = st.handled ∧ st1.marks = st.marks

/-! ### Concrete example world

A three-person winter-school world used by the witnesses and
counterexamples: `exP` and `exQ` are a reciprocal non-driver pair, `exD` an
unpaired driver; all three signed up for the two-seat lottery trip `exT`. -/

def exP : Participant :=
  { pk := 1, name := "P", affiliation := .NA,
    lotteryinfo := some { car_status := .none, paired_with := some 2 },
    hist := [], trips_led_dates := [] }

def exQ : Participant :=
  { pk := 2, name := "Q", affiliation := .NA,
    lotteryinfo := some { car_status := .none, paired_with := some 1 },
    hist := [{ trip_date := 60, activity := "winter_school",
               feedback := [false], on_trip := false }],
    trips_led_dates := [] }

def exD : Participant :=
  { pk := 3, name := "D", affiliation := .NA,
    lotteryinfo := some { car_status := .own, paired_with := none },
    hist := [{ trip_date := 60, activity := "winter_school",
               feedback := [false], on_trip := false },
             { trip_date := 61, activity := "winter_school",
               feedback := [false], on_trip := false }],
    trips_led_dates := [] }

def exT : Trip :=
  { pk := 10, name := "T", trip_date := 150, activity := "winter_school",
    algorithm := .lottery, maximum_participants := 2, leaders := [],
    honor_participant_pairing := true, lottery_log := "", signups_open_at := 0 }

def exSu1 : SignUp :=
  { pk := 101, participant := 1, trip := 10, on_trip := false,
    last_updated := 0, order := 0, time_created := 0 }

def exSu2 : SignUp :=
  { pk := 102, participant := 2, trip := 10, on_trip := false,
    last_updated := 1, order := 0, time_created := 1 }

def exSu3 : SignUp :=
  { pk := 103, participant := 3, trip := 10, on_trip := false,
    last_updated := 2, order := 0, time_created := 2 }

def exDB : DB :=
  { participants := [exP, exQ, exD], trips := [exT],
    signups := [exSu1, exSu2, exSu3], waitlist := [] }

def exCtx : RankerCtx := { today := 100, jan_1st := 50, rand := fun _ => 0 }

def exSt0 : EngSt := { db := exDB, log := [], handled := [], marks := [] }

/-- The example world with the pair already seated (trip full, no seated
driver). -/
def exDBfull : DB :=
  { participants := [exP, exQ, exD], trips := [exT],
    signups := [{ exSu1 with on_trip := true }, { exSu2 with on_trip := true },
                exSu3],
    waitlist := [] }

def exStFull : EngSt := { db := exDBfull, log := [], handled := [], marks := [] }

/-- A start state where the unpaired driver `exD` is already marked
resolved. -/
def exStHandledD : EngSt :=
  { db := exDB, log := [], handled := [(3, true)], marks := [] }

/-- A start state where the pair member `exP` has already been resolved
(deferred), as when `exP` was ranked first. -/
def exStHandledP : EngSt :=
  { db := exDB, log := [], handled := [(1, true)], marks := [] }

/-- A non-lottery copy of the example trip, and a store containing it. -/
def exTfcfs : Trip := { exT with pk := 11, name := "U", algorithm := .fcfs }

def exDBfcfs : DB :=
  { participants := [exP, exQ, exD], trips := [exTfcfs], signups := [], waitlist := [] }

/-! ### Order lemmas for the 3-key tuples -/

theorem keyLe_refl (a : Key) : keyLe a a := by
  unfold keyLe; omega

theorem keyLe_trans {a b c : Key} (h1 : keyLe a b) (h2 : keyLe b c) : keyLe a c := by
  unfold keyLe at *; omega

theorem keyLe_total (a b : Key) : keyLe a b ∨ keyLe b a := by
  unfold keyLe; omega

theorem keyLe_of_not_lt {a b : Key} (h : ¬ keyLt a b) : keyLe b a := by
  unfold keyLe; unfold keyLt at h; omega

theorem keyLe_of_lt {a b : Key} (h : keyLt a b) : keyLe a b := by
  unfold keyLe; unfold keyLt at h; omega

instance (ctx : RankerCtx) : IsTotal Participant (wsParLe ctx) :=
  ⟨fun a b => keyLe_total _ _⟩

instance (ctx : RankerCtx) : IsTrans Participant (wsParLe ctx) :=
  ⟨fun _ _ _ => keyLe_trans⟩

/-- C6: the season ranker orders every participant ascending by the 3-key
tuple `(max(flake_factor, 0), -trips_led_balance, affiliation-weighted
random)` — the output of `ws_ranked` is sorted by that tuple and is a
permutation of all participants — and `trips_led_balance` (the leader
credit) is never negative. -/
theorem C6_ranker_orders_by_key (ctx : RankerCtx) (db : DB) :
    List.Sorted (wsParLe ctx) (ws_ranked ctx db) ∧
    (ws_ranked ctx db).Perm db.participants ∧
    ∀ p : Participant, 0 ≤ trips_led_balance ctx p := by
  refine ⟨List.sorted_insertionSort _ _, List.perm_insertionSort _ _, fun p => ?_⟩
  exact le_max_right _ _

/-- C7: appending one additional past winter-school trip of the current
season to a participant's history changes `flake_factor` by exactly +5 when
every leader reported a no-show, by exactly −2 when every leader confirmed
attendance, and not at all when there is no leader feedback. -/
theorem C7_flake_factor_monotonicity (ctx : RankerCtx) (p : Participant) (t : HistTrip)
    (h1 : ctx.jan_1st < t.trip_date) (h2 : t.trip_date < ctx.today)
    (h3 : t.activity = "winter_school") :
    ((t.feedback ≠ [] ∧ ∀ b ∈ t.feedback, b = false) →
      flake_factor ctx { p with hist := p.hist ++ [t] } = flake_factor ctx p + 5) ∧
    ((t.feedback ≠ [] ∧ ∀ b ∈ t.feedback, b = true) →
      flake_factor ctx { p with hist := p.hist ++ [t] } = flake_factor ctx p - 2) ∧
    (t.feedback = [] →
      flake_factor ctx { p with hist := p.hist ++ [t] } = flake_factor ctx p) := by
  have hbase : flake_factor ctx { p with hist := p.hist ++ [t] } =
      (if t.feedback.isEmpty then flake_factor ctx p
       else if t.feedback.all (fun b => b) then flake_factor ctx p - 2
       else flake_factor ctx p + 5) := by
    unfold flake_factor past_ws_trips
    simp only [List.filter_append, List.foldl_append]
    simp [h1, h2, h3]
  refine ⟨fun hc => ?_, fun hc => ?_, fun hc => ?_⟩
  · obtain ⟨hne, hall⟩ := hc
    cases hfb : t.feedback with
    | nil => exact absurd hfb hne
    | cons b bs =>
      have hb : b = false := hall b (by simp [hfb])
      rw [hbase]
      simp [hfb, hb]
  · obtain ⟨hne, hall⟩ := hc
    cases hfb : t.feedback with
    | nil => exact absurd hfb hne
    | cons b bs =>
      rw [hbase]
      have : (b :: bs).all (fun x => x) = true := by
        rw [List.all_eq_true]
        intro x hx
        simpa using hall x (by rw [hfb]; exact hx)
      simp [hfb, this]
  · rw [hbase]; simp [hc]

/-- Witness for C7 at a concrete history extension (the +5 case). -/
theorem C7_flake_factor_monotonicity_witness :
    flake_factor exCtx { exP with hist := exP.hist ++
      [{ trip_date := 60, activity := "winter_school", feedback := [false],
         on_trip := false }] } = flake_factor exCtx exP + 5 :=
  (C7_flake_factor_monotonicity exCtx exP _ (by decide) (by decide) (by decide)).1
    ⟨by decide, by decide⟩

/-! ### Frame lemmas for the primitive store operations -/

theorem setOnTrip_trips (db : DB) (pk : Nat) (b : Bool) :
    (db.setOnTrip pk b).trips = db.trips := rfl

theorem setOnTrip_participants (db : DB) (pk : Nat) (b : Bool) :
    (db.setOnTrip pk b).participants = db.participants := rfl

theorem setOnTrip_waitlist (db : DB) (pk : Nat) (b : Bool) :
    (db.setOnTrip pk b).waitlist = db.waitlist := rfl

theorem setOnTrip_signups (db : DB) (pk : Nat) (b : Bool) :
    (db.setOnTrip pk b).signups =
      db.signups.map (fun s => if s.pk == pk then { s with on_trip := b } else s) := rfl

theorem add_to_waitlist_trips (db : DB) (su : SignUp) (pz : Bool) :
    (add_to_waitlist db su pz).trips = db.trips := by
  unfold add_to_waitlist; cases pz <;> rfl

theorem add_to_waitlist_participants (db : DB) (su : SignUp) (pz : Bool) :
    (add_to_waitlist db su pz).participants = db.participants := by
  unfold add_to_waitlist; cases pz <;> rfl

theorem add_to_waitlist_signups (db : DB) (su : SignUp) (pz : Bool) :
    (add_to_waitlist db su pz).signups =
      db.signups.map (fun s => if s.pk == su.pk then { s with on_trip := false } else s) := by
  unfold add_to_waitlist; cases pz <;> rfl

theorem add_to_waitlist_waitlist_true (db : DB) (su : SignUp) :
    (add_to_waitlist db su true).waitlist = su.pk :: db.waitlist := rfl

theorem add_to_waitlist_waitlist_false (db : DB) (su : SignUp) :
    (add_to_waitlist db su false).waitlist = db.waitlist ++ [su.pk] := rfl

theorem logInfo_db (st : EngSt) (m : String) : (st.logInfo m).db = st.db := rfl

theorem logInfo_handled (st : EngSt) (m : String) : (st.logInfo m).handled = st.handled := rfl

theorem logInfo_marks (st : EngSt) (m : String) : (st.logInfo m).marks = st.marks := rfl

theorem markHandled_db (st : EngSt) (pk : Nat) : (st.markHandled pk).db = st.db := rfl

theorem markHandled_handled (st : EngSt) (pk : Nat) :
    (st.markHandled pk).handled = (pk, true) :: st.handled := rfl

theorem markHandled_marks (st : EngSt) (pk : Nat) :
    (st.markHandled pk).marks = st.marks ++ [pk] := rfl

theorem place_on_trip_db (st : EngSt) (su : SignUp) :
    (st.place_on_trip su).db = st.db.setOnTrip su.pk true := rfl

theorem place_on_trip_handled (st : EngSt) (su : SignUp) :
    (st.place_on_trip su).handled = st.handled := rfl

theorem place_on_trip_marks (st : EngSt) (su : SignUp) :
    (st.place_on_trip su).marks = st.marks := rfl

theorem isHandled_markHandled (st : EngSt) (pk q : Nat) :
    (st.markHandled pk).isHandled q = if q = pk then true else st.isHandled q := by
  by_cases h : q = pk
  · subst h
    simp [EngSt.isHandled, EngSt.markHandled, List.find?]
  · rw [if_neg h]
    have hbeq : (pk == q) = false := by
      simp
      exact fun hc => h hc.symm
    unfold EngSt.isHandled EngSt.markHandled
    simp only [List.find?, hbeq]

/-- `findSignup` looks through an `on_trip` update, which preserves the
participant and trip columns. -/
theorem findSignup_setOnTrip (db : DB) (pk : Nat) (b : Bool) (a t : Nat) :
    (db.setOnTrip pk b).findSignup a t =
      (db.findSignup a t).map (fun s => if s.pk == pk then { s with on_trip := b } else s) := by
  unfold DB.findSignup DB.setOnTrip
  rw [List.find?_map]
  have hpred : ((fun s : SignUp => s.participant == a && s.trip == t) ∘
      (fun s => if s.pk == pk then { s with on_trip := b } else s)) =
      (fun s : SignUp => s.participant == a && s.trip == t) := by
    funext s
    by_cases h : s.pk = pk <;> simp [h]
  rw [hpred]

theorem findSignup_mem {db : DB} {a t : Nat} {s : SignUp}
    (h : db.findSignup a t = some s) : s ∈ db.signups :=
  List.mem_of_find?_eq_some h

theorem findSignup_spec {db : DB} {a t : Nat} {s : SignUp}
    (h : db.findSignup a t = some s) : s.participant = a ∧ s.trip = t := by
  have := List.find?_some h
  simp at this
  exact this

theorem seatedOn_setOnTrip_true_of_mem {db : DB} {su : SignUp}
    (hmem : su ∈ db.signups) (a t : Nat) (hp : su.participant = a) (ht : su.trip = t) :
    seatedOn (db.setOnTrip su.pk true) a t = true := by
  unfold seatedOn
  rw [setOnTrip_signups, List.any_map, List.any_eq_true]
  refine ⟨su, hmem, ?_⟩
  simp [hp, ht]

theorem seatedOn_mono_setOnTrip_true {db : DB} {a t : Nat}
    (h : seatedOn db a t = true) (pk : Nat) :
    seatedOn (db.setOnTrip pk true) a t = true := by
  unfold seatedOn at *
  rw [setOnTrip_signups, List.any_map, List.any_eq_true]
  rw [List.any_eq_true] at h
  obtain ⟨s, hmem, hs⟩ := h
  refine ⟨s, hmem, ?_⟩
  simp at hs
  by_cases hpk : s.pk = pk <;> simp [hpk, hs.1.1, hs.1.2, hs.2]

theorem signupSeated_setOnTrip_true {db : DB} {pk : Nat}
    (h : ∃ s ∈ db.signups, s.pk = pk) :
    signupSeated (db.setOnTrip pk true) pk = true := by
  unfold signupSeated
  rw [setOnTrip_signups, List.any_map, List.any_eq_true]
  obtain ⟨s, hmem, hs⟩ := h
  refine ⟨s, hmem, ?_⟩
  simp [hs]

theorem signupSeated_setOnTrip_false {db : DB} (pk : Nat) :
    signupSeated (db.setOnTrip pk false) pk = false := by
  unfold signupSeated
  rw [setOnTrip_signups, List.any_map]
  rw [List.any_eq_false]
  intro s _
  by_cases hpk : s.pk = pk <;> simp [hpk]

theorem signupSeated_setOnTrip_ne {db : DB} {pk pk2 : Nat} (b : Bool) (hne : pk ≠ pk2) :
    signupSeated (db.setOnTrip pk2 b) pk = signupSeated db pk := by
  unfold signupSeated
  rw [setOnTrip_signups, List.any_map]
  congr 1
  funext s
  by_cases hpk : s.pk = pk2
  · have h2 : (pk2 == pk) = false := by
      simp
      exact fun hc => hne hc.symm
    simp [hpk, h2]
  · simp [hpk]

/-! ### Branch lemmas for `try_to_place` -/

theorem try_to_place_capacity (sel : DB → Trip → Option SignUp) (h : Handler)
    (st : EngSt) (su : SignUp) (trip : Trip)
    (htrip : st.db.findTrip su.trip = some trip)
    (hopen : h.slots_needed ≤ st.db.open_slots trip) :
    try_to_place sel h st su = (place_all_on_trip h st su).map (fun st1 => (st1, true)) := by
  simp only [try_to_place, htrip]
  rw [if_pos hopen]

theorem try_to_place_fail_noguard (sel : DB → Trip → Option SignUp) (h : Handler)
    (st : EngSt) (su : SignUp) (trip : Trip)
    (htrip : st.db.findTrip su.trip = some trip)
    (hopen : ¬ h.slots_needed ≤ st.db.open_slots trip)
    (hguard : (h.is_driver && st.db.open_slots trip == 0 && !h.paired) = false) :
    try_to_place sel h st su = some (st, false) := by
  simp only [try_to_place, htrip]
  rw [if_neg hopen, hguard]
  simp

theorem try_to_place_fail_quota (sel : DB → Trip → Option SignUp) (h : Handler)
    (st : EngSt) (su : SignUp) (trip : Trip)
    (htrip : st.db.findTrip su.trip = some trip)
    (hopen : ¬ h.slots_needed ≤ st.db.open_slots trip)
    (hguard : (h.is_driver && st.db.open_slots trip == 0 && !h.paired) = true)
    (hquota : ¬ count_drivers_on_trip st.db trip < h.min_drivers) :
    try_to_place sel h st su = some (st, false) := by
  simp only [try_to_place, htrip]
  rw [if_neg hopen, hguard]
  simp only [if_true]
  rw [if_neg hquota]

theorem try_to_place_bump (sel : DB → Trip → Option SignUp) (h : Handler)
    (st : EngSt) (su : SignUp) (trip : Trip) (b : SignUp)
    (htrip : st.db.findTrip su.trip = some trip)
    (hopen : ¬ h.slots_needed ≤ st.db.open_slots trip)
    (hguard : (h.is_driver && st.db.open_slots trip == 0 && !h.paired) = true)
    (hquota : count_drivers_on_trip st.db trip < h.min_drivers)
    (hsel : sel st.db trip = some b) :
    (try_to_place sel h st su).map (fun pr => (pr.2, pr.1.db, pr.1.handled, pr.1.marks)) =
      some (true, (add_to_waitlist st.db b true).setOnTrip su.pk true,
        st.handled, st.marks) := by
  simp only [try_to_place, htrip]
  rw [if_neg hopen, hguard]
  simp only [if_true]
  rw [if_pos hquota]
  simp only [EngSt.logInfo]
  rw [hsel]
  simp

theorem place_all_unpaired (h : Handler) (st : EngSt) (su : SignUp)
    (hnp : h.paired = false) :
    place_all_on_trip h st su = some (st.place_on_trip su) := by
  simp only [place_all_on_trip, hnp]
  simp

theorem place_all_paired (h : Handler) (st : EngSt) (su : SignUp) (q : Participant)
    (ps : SignUp) (hp : h.paired = true) (hq : h.paired_par = some q)
    (hps : (st.db.setOnTrip su.pk true).findSignup q.pk su.trip = some ps) :
    place_all_on_trip h st su = some ((st.place_on_trip su).place_on_trip ps) := by
  simp only [place_all_on_trip, hp, hq]
  simp only [place_on_trip_db, hps]
  simp

/-- C5: when `to_be_placed` has two members (an honored, allowed pair), the
driver-bump branch of `try_to_place` never runs: `slots_needed` is two, a
successful placement implies the trip had at least two open slots (ordinary
open capacity), and with fewer than two open slots the call returns `false`
leaving the run state untouched. -/
theorem C5_paired_request_never_bumps (sel : DB → Trip → Option SignUp) (h : Handler)
    (st : EngSt) (su : SignUp) (trip : Trip) (q : Participant)
    (htrip : st.db.findTrip su.trip = some trip)
    (hp : h.paired = true) (ha : h.allow_pairs = true) (hq : h.paired_par = some q) :
    h.slots_needed = 2 ∧
    (∀ st1, try_to_place sel h st su = some (st1, true) →
       2 ≤ st.db.open_slots trip) ∧
    (st.db.open_slots trip < 2 →
       try_to_place sel h st su = some (st, false)) := by
  have hn : h.slots_needed = 2 := by
    simp [Handler.slots_needed, Handler.to_be_placed, hp, ha, hq]
  refine ⟨hn, ?_, ?_⟩
  · intro st1 hres
    by_contra hlt
    have hfail : try_to_place sel h st su = some (st, false) := by
      apply try_to_place_fail_noguard sel h st su trip htrip
      · rw [hn]; omega
      · simp [hp]
    rw [hfail] at hres
    simp at hres
  · intro hlt
    apply try_to_place_fail_noguard sel h st su trip htrip
    · rw [hn]; omega
    · simp [hp]

/-- Witness for C5: the seated pair world, full trip, a pair placement
attempt fails without touching anything. -/
theorem C5_paired_request_never_bumps_witness :
    try_to_place (lowest_non_driver exCtx) (mkWSHandler exDBfull exQ) exStFull
      { exSu2 with on_trip := true } = some (exStFull, false) :=
  (C5_paired_request_never_bumps (lowest_non_driver exCtx) (mkWSHandler exDBfull exQ)
    exStFull { exSu2 with on_trip := true } exT exP
    (by decide) (by decide) (by decide) (by decide)).2.2 (by decide)

theorem map_fix_of_mem {l : List SignUp} {f : SignUp → SignUp}
    (h : ∀ s ∈ l, f s = s) : l.map f = l := by
  induction l with
  | nil => rfl
  | cons a l ih =>
    simp only [List.map_cons]
    rw [h a (by simp), ih (fun s hs => h s (by simp [hs]))]

theorem signupsExcept_update (l : List SignUp) (pk0 pk1 pk2 : Nat) (b : Bool)
    (h0 : pk0 = pk1 ∨ pk0 = pk2) :
    signupsExcept (l.map (fun s => if s.pk == pk0 then { s with on_trip := b } else s))
      pk1 pk2 = signupsExcept l pk1 pk2 := by
  unfold signupsExcept
  rw [List.filter_map]
  have hcomp : ((fun s : SignUp => !(s.pk == pk1) && !(s.pk == pk2)) ∘
      (fun s => if s.pk == pk0 then { s with on_trip := b } else s)) =
      (fun s : SignUp => !(s.pk == pk1) && !(s.pk == pk2)) := by
    funext s
    by_cases hs : s.pk = pk0 <;> simp [hs]
  rw [hcomp]
  apply map_fix_of_mem
  intro s hs
  rw [List.mem_filter] at hs
  simp only [Bool.and_eq_true, Bool.not_eq_true', beq_eq_false_iff_ne, ne_eq] at hs
  have hne : s.pk ≠ pk0 := by
    rcases h0 with h0 | h0 <;> subst h0
    · exact hs.2.1
    · exact hs.2.2
  simp [hne]

theorem signupSeated_congr {db1 db2 : DB} (h : db1.signups = db2.signups) (pk : Nat) :
    signupSeated db1 pk = signupSeated db2 pk := by
  unfold signupSeated
  rw [h]

theorem add_to_waitlist_signups_as_setOnTrip (db : DB) (s : SignUp) (pz : Bool) :
    (add_to_waitlist db s pz).signups = (db.setOnTrip s.pk false).signups := by
  rw [add_to_waitlist_signups, setOnTrip_signups]

/-- C1: full case analysis of `try_to_place` for the handler configurations
the engine constructs (`allow_pairs` true, or `min_drivers` zero).  If the
trip has at least `slots_needed` open slots, every member of `to_be_placed`
ends up seated and the call returns `true`.  Otherwise, if `to_be_placed` is
a single driver, the trip has zero open slots and its driver count is below
the handler's quota, the signup chosen by the runner's bump selector moves
to the head of the waitlist and off the trip, the driver is seated, every
other signup row is untouched, and the call returns `true`.  In every other
case the call returns `false` and the run state is unchanged. -/
theorem C1_try_to_place_cases (sel : DB → Trip → Option SignUp) (h : Handler)
    (st : EngSt) (su : SignUp) (trip : Trip)
    (htrip : st.db.findTrip su.trip = some trip)
    (hcfg : h.allow_pairs = true ∨ h.min_drivers = 0)
    (hpp : h.paired = true → h.paired_par.isSome = true)
    (hsu_mem : su ∈ st.db.signups)
    (hsup : su.participant = h.participant.pk)
    (hpartner : h.paired = true →
      (match h.paired_par with
       | some q => (st.db.findSignup q.pk su.trip).isSome
       | none => true) = true) :
    (h.slots_needed ≤ st.db.open_slots trip →
       (try_to_place sel h st su).map
         (fun pr => (pr.2, h.to_be_placed.all (fun par => seatedOn pr.1.db par.pk su.trip))) =
         some (true, true)) ∧
    (h.slots_needed = 1 → h.is_driver = true → st.db.open_slots trip = 0 →
     count_drivers_on_trip st.db trip < h.min_drivers →
     ∀ b, sel st.db trip = some b → b.pk ≠ su.pk →
       (try_to_place sel h st su).map
         (fun pr => (pr.2, pr.1.db.waitlist, signupSeated pr.1.db su.pk,
                     signupSeated pr.1.db b.pk,
                     signupsExcept pr.1.db.signups su.pk b.pk)) =
         some (true, b.pk :: st.db.waitlist, true, false,
               signupsExcept st.db.signups su.pk b.pk)) ∧
    (st.db.open_slots trip < h.slots_needed →
     ¬ (h.slots_needed = 1 ∧ h.is_driver = true ∧ st.db.open_slots trip = 0 ∧
        count_drivers_on_trip st.db trip < h.min_drivers) →
       try_to_place sel h st su = some (st, false)) := by
  refine ⟨?_, ?_, ?_⟩
  · -- capacity case
    intro hopen
    rw [try_to_place_capacity sel h st su trip htrip hopen]
    cases hpRaw : h.paired
    · rw [place_all_unpaired h st su hpRaw]
      have htbp : h.to_be_placed = [h.participant] := by
        simp [Handler.to_be_placed, hpRaw]
      rw [htbp]
      simp only [Option.map_map, Option.map_some, Function.comp]
      have hseat : seatedOn (st.place_on_trip su).db h.participant.pk su.trip = true := by
        rw [place_on_trip_db]
        exact seatedOn_setOnTrip_true_of_mem hsu_mem _ _ hsup rfl
      simp [hseat]
    · obtain ⟨q, hq⟩ := Option.isSome_iff_exists.mp (hpp hpRaw)
      have hfs0 := hpartner hpRaw
      rw [hq] at hfs0
      obtain ⟨ps0, hps0⟩ := Option.isSome_iff_exists.mp hfs0
      obtain ⟨ps, hps1⟩ : ∃ ps,
          (st.db.setOnTrip su.pk true).findSignup q.pk su.trip = some ps := by
        rw [findSignup_setOnTrip, hps0]
        exact ⟨_, rfl⟩
      rw [place_all_paired h st su q ps hpRaw hq hps1]
      have hpsmem := findSignup_mem hps1
      have hpsspec := findSignup_spec hps1
      simp only [Option.map_map, Option.map_some, Function.comp]
      have hseat1 : seatedOn (((st.place_on_trip su).place_on_trip ps).db)
          h.participant.pk su.trip = true := by
        simp only [place_on_trip_db]
        apply seatedOn_mono_setOnTrip_true
        exact seatedOn_setOnTrip_true_of_mem hsu_mem _ _ hsup rfl
      have hseat2 : seatedOn (((st.place_on_trip su).place_on_trip ps).db)
          q.pk su.trip = true := by
        simp only [place_on_trip_db]
        exact seatedOn_setOnTrip_true_of_mem hpsmem _ _ hpsspec.1 hpsspec.2
      cases haRaw : h.allow_pairs
      · have htbp : h.to_be_placed = [h.participant] := by
          simp [Handler.to_be_placed, hpRaw, haRaw]
        rw [htbp]
        simp [hseat1]
      · have htbp : h.to_be_placed = [h.participant, q] := by
          simp [Handler.to_be_placed, hpRaw, haRaw, hq]
        rw [htbp]
        simp [hseat1, hseat2]
  · -- driver bump case
    intro hn1 hdrv hzero hquota b hsel hbne
    have hopen : ¬ h.slots_needed ≤ st.db.open_slots trip := by
      rw [hn1, hzero]; omega
    have hp_false : h.paired = false := by
      rcases hcfg with hallow | hmin
      · cases hpRaw : h.paired
        · rfl
        · obtain ⟨q, hq⟩ := Option.isSome_iff_exists.mp (hpp hpRaw)
          have h2 : h.slots_needed = 2 := by
            simp [Handler.slots_needed, Handler.to_be_placed, hpRaw, hallow, hq]
          omega
      · rw [hmin] at hquota
        exact absurd hquota (Nat.not_lt_zero _)
    have hguard : (h.is_driver && st.db.open_slots trip == 0 && !h.paired) = true := by
      simp [hdrv, hzero, hp_false]
    have hres := try_to_place_bump sel h st su trip b htrip hopen hguard hquota hsel
    cases hraw : try_to_place sel h st su with
    | none => rw [hraw] at hres; simp at hres
    | some pr =>
      rw [hraw] at hres
      simp only [Option.map_some', Option.some.injEq, Prod.mk.injEq] at hres
      obtain ⟨hr2, hrdb, -, -⟩ := hres
      simp only [Option.map_some', Option.some.injEq, hr2, hrdb, Prod.mk.injEq]
      refine ⟨trivial, ?_, ?_, ?_, ?_⟩
      · rw [setOnTrip_waitlist, add_to_waitlist_waitlist_true]
      · apply signupSeated_setOnTrip_true
        refine ⟨(fun s => if s.pk == b.pk then { s with on_trip := false } else s) su, ?_, ?_⟩
        · rw [add_to_waitlist_signups]
          exact List.mem_map_of_mem _ hsu_mem
        · by_cases hc : su.pk = b.pk <;> simp [hc]
      · rw [signupSeated_setOnTrip_ne true hbne]
        rw [signupSeated_congr (add_to_waitlist_signups_as_setOnTrip st.db b true) b.pk]
        exact signupSeated_setOnTrip_false b.pk
      · rw [setOnTrip_signups, add_to_waitlist_signups]
        rw [signupsExcept_update _ su.pk su.pk b.pk true (Or.inl rfl)]
        rw [signupsExcept_update _ b.pk su.pk b.pk false (Or.inr rfl)]
  · -- every other case
    intro hlt hnot
    have hopen : ¬ h.slots_needed ≤ st.db.open_slots trip := by omega
    cases hguard : (h.is_driver && st.db.open_slots trip == 0 && !h.paired)
    · exact try_to_place_fail_noguard sel h st su trip htrip hopen hguard
    · have hX := hguard
      rw [Bool.and_eq_true, Bool.and_eq_true] at hX
      obtain ⟨⟨hdrv, hzeroB⟩, hnpB⟩ := hX
      have hzero : st.db.open_slots trip = 0 := by simpa using hzeroB
      have hnp : h.paired = false := by
        cases hcp : h.paired
        · rfl
        · rw [hcp] at hnpB; simp at hnpB
      have hn1 : h.slots_needed = 1 := by
        simp [Handler.slots_needed, Handler.to_be_placed, hnp]
      have hquota : ¬ count_drivers_on_trip st.db trip < h.min_drivers := by
        intro hc
        exact hnot ⟨hn1, hdrv, hzero, hc⟩
      exact try_to_place_fail_quota sel h st su trip htrip hopen hguard hquota

/-- Witness for C1 at the open-capacity case: the pair placement on the
two-seat example trip seats both members and succeeds. -/
theorem C1_try_to_place_cases_witness :
    (try_to_place (lowest_non_driver exCtx) (mkWSHandler exDB exQ) exSt0 exSu2).map
      (fun pr => (pr.2, (mkWSHandler exDB exQ).to_be_placed.all
        (fun par => seatedOn pr.1.db par.pk exSu2.trip))) = some (true, true) :=
  (C1_try_to_place_cases (lowest_non_driver exCtx) (mkWSHandler exDB exQ) exSt0 exSu2 exT
    (by decide) (by decide) (by decide) (by decide) (by decide) (by decide)).1 (by decide)

theorem maxByKey_mem {α : Type} (f : α → Key) (a : α) (l : List α) :
    maxByKey f a l ∈ a :: l := by
  induction l generalizing a with
  | nil => simp [maxByKey]
  | cons b l ih =>
    rw [show maxByKey f a (b :: l) = maxByKey f (if keyLt (f a) (f b) then b else a) l from rfl]
    rcases List.mem_cons.mp (ih (if keyLt (f a) (f b) then b else a)) with hx | hx
    · rw [hx]
      by_cases hc : keyLt (f a) (f b) <;> simp [hc]
    · simp [hx]

theorem maxByKey_ge {α : Type} (f : α → Key) (a : α) (l : List α) :
    ∀ x ∈ a :: l, keyLe (f x) (f (maxByKey f a l)) := by
  induction l generalizing a with
  | nil =>
    intro x hx
    rcases List.mem_cons.mp hx with hx | hx
    · rw [hx]; exact keyLe_refl _
    · simp at hx
  | cons b l ih =>
    intro x hx
    rw [show maxByKey f a (b :: l) = maxByKey f (if keyLt (f a) (f b) then b else a) l from rfl]
    have hstep_a : keyLe (f a) (f (if keyLt (f a) (f b) then b else a)) := by
      by_cases hc : keyLt (f a) (f b)
      · rw [if_pos hc]; exact keyLe_of_lt hc
      · rw [if_neg hc]; exact keyLe_refl _
    have hstep_b : keyLe (f b) (f (if keyLt (f a) (f b) then b else a)) := by
      by_cases hc : keyLt (f a) (f b)
      · rw [if_pos hc]; exact keyLe_refl _
      · rw [if_neg hc]; exact keyLe_of_not_lt hc
    have htop := ih (if keyLt (f a) (f b) then b else a)
      (if keyLt (f a) (f b) then b else a) (by simp)
    rcases List.mem_cons.mp hx with hx | hx
    · rw [hx]; exact keyLe_trans hstep_a htop
    · rcases List.mem_cons.mp hx with hx | hx
      · rw [hx]; exact keyLe_trans hstep_b htop
      · exact ih _ x (List.mem_cons_of_mem _ hx)

/-- What `lowest_non_driver` returns: a seated non-driver of the trip whose
3-key tuple is maximal among all seated non-drivers. -/
theorem lowest_non_driver_spec (ctx : RankerCtx) (db : DB) (trip : Trip) (b : SignUp)
    (h : lowest_non_driver ctx db trip = some b) :
    b ∈ (db.onTripSignups trip.pk).filter (signup_no_car db) ∧
    ∀ s ∈ (db.onTripSignups trip.pk).filter (signup_no_car db),
      keyLe (signupKey ctx db s) (signupKey ctx db b) := by
  unfold lowest_non_driver at h
  cases hfl : (db.onTripSignups trip.pk).filter (signup_no_car db) with
  | nil => rw [hfl] at h; simp at h
  | cons a l =>
    rw [hfl] at h
    simp only [Option.some.injEq] at h
    constructor
    · rw [← h]
      exact maxByKey_mem _ a l
    · intro s hs
      rw [← h]
      exact maxByKey_ge _ a l s hs

/-- The `no_car` filter is the complement of the `is_driver_q` filter. -/
theorem no_car_not_driver {db : DB} {s : SignUp} (h : signup_no_car db s = true) :
    signup_is_driver db s = false := by
  unfold signup_no_car at h
  unfold signup_is_driver par_is_driver LotteryInfo.is_driver
  cases hfp : db.findPar s.participant with
  | none => simp [hfp]
  | some p =>
    simp only [hfp] at h ⊢
    cases hli : p.lotteryinfo with
    | none => simp [hli]
    | some li =>
      simp only [hli] at h ⊢
      cases hcs : li.car_status <;> simp only [hcs] at h ⊢ <;> simp_all

theorem try_to_place_bump_none (sel : DB → Trip → Option SignUp) (h : Handler)
    (st : EngSt) (su : SignUp) (trip : Trip)
    (htrip : st.db.findTrip su.trip = some trip)
    (hopen : ¬ h.slots_needed ≤ st.db.open_slots trip)
    (hguard : (h.is_driver && st.db.open_slots trip == 0 && !h.paired) = true)
    (hquota : count_drivers_on_trip st.db trip < h.min_drivers)
    (hsel : sel st.db trip = none) :
    try_to_place sel h st su = none := by
  simp only [try_to_place, htrip]
  rw [if_neg hopen, hguard]
  simp only [if_true]
  rw [if_pos hquota]
  simp only [EngSt.logInfo]
  rw [hsel]

/-- C4: whenever the driver-bump branch of `try_to_place` fires under the
winter-school selector (the placement succeeds although open capacity was
insufficient), the bump target `b` is a seated non-driver of the trip, its
3-key priority tuple is at least that of every seated non-driver (numerically
no lower, so its priority is no better), it is pushed onto the head of the
waitlist, and it is no longer seated afterwards. -/
theorem C4_bump_invariant (ctx : RankerCtx) (h : Handler) (st : EngSt) (su : SignUp)
    (trip : Trip) (b : SignUp)
    (htrip : st.db.findTrip su.trip = some trip)
    (hopen : st.db.open_slots trip < h.slots_needed)
    (hsel : lowest_non_driver ctx st.db trip = some b)
    (hres : (try_to_place (lowest_non_driver ctx) h st su).map (fun pr => pr.2) =
      some true) :
    signup_no_car st.db b = true ∧
    signup_is_driver st.db b = false ∧
    (∀ s ∈ (st.db.onTripSignups trip.pk).filter (signup_no_car st.db),
      keyLe (signupKey ctx st.db s) (signupKey ctx st.db b)) ∧
    (try_to_place (lowest_non_driver ctx) h st su).map (fun pr => pr.1.db.waitlist) =
      some (b.pk :: st.db.waitlist) ∧
    (b.pk ≠ su.pk →
      (try_to_place (lowest_non_driver ctx) h st su).map
        (fun pr => signupSeated pr.1.db b.pk) = some false) := by
  have hopen2 : ¬ h.slots_needed ≤ st.db.open_slots trip := by omega
  have hspec := lowest_non_driver_spec ctx st.db trip b hsel
  have hnocar : signup_no_car st.db b = true := by
    have := hspec.1
    rw [List.mem_filter] at this
    exact this.2
  cases hguard : (h.is_driver && st.db.open_slots trip == 0 && !h.paired)
  · rw [try_to_place_fail_noguard _ h st su trip htrip hopen2 hguard] at hres
    simp at hres
  · by_cases hquota : count_drivers_on_trip st.db trip < h.min_drivers
    · have hb := try_to_place_bump _ h st su trip b htrip hopen2 hguard hquota hsel
      cases hraw : try_to_place (lowest_non_driver ctx) h st su with
      | none => rw [hraw] at hb; simp at hb
      | some pr =>
        rw [hraw] at hb
        simp only [Option.map_some', Option.some.injEq, Prod.mk.injEq] at hb
        obtain ⟨-, hdb, -, -⟩ := hb
        refine ⟨hnocar, no_car_not_driver hnocar, hspec.2, ?_, ?_⟩
        · simp only [Option.map_some', Option.some.injEq, hdb]
          rw [setOnTrip_waitlist, add_to_waitlist_waitlist_true]
        · intro hbne
          simp only [Option.map_some', Option.some.injEq, hdb]
          rw [signupSeated_setOnTrip_ne true hbne]
          rw [signupSeated_congr (add_to_waitlist_signups_as_setOnTrip st.db b true) b.pk]
          exact signupSeated_setOnTrip_false b.pk
    · rw [try_to_place_fail_quota _ h st su trip htrip hopen2 hguard hquota] at hres
      simp at hres

/-- Witness for C4: the full example trip with two seated non-drivers; the
driver placement bumps the worst-priority non-driver to the waitlist head. -/
theorem C4_bump_invariant_witness :
    signup_no_car exStFull.db { exSu2 with on_trip := true } = true ∧
    signup_is_driver exStFull.db { exSu2 with on_trip := true } = false ∧
    (∀ s ∈ (exStFull.db.onTripSignups exT.pk).filter (signup_no_car exStFull.db),
      keyLe (signupKey exCtx exStFull.db s)
        (signupKey exCtx exStFull.db { exSu2 with on_trip := true })) ∧
    (try_to_place (lowest_non_driver exCtx) (mkWSHandler exDBfull exD) exStFull exSu3).map
      (fun pr => pr.1.db.waitlist) =
      some ({ exSu2 with on_trip := true }.pk :: exStFull.db.waitlist) ∧
    ({ exSu2 with on_trip := true }.pk ≠ exSu3.pk →
      (try_to_place (lowest_non_driver exCtx) (mkWSHandler exDBfull exD) exStFull exSu3).map
        (fun pr => signupSeated pr.1.db { exSu2 with on_trip := true }.pk) = some false) :=
  C4_bump_invariant exCtx (mkWSHandler exDBfull exD) exStFull exSu3 exT
    { exSu2 with on_trip := true }
    (by decide) (by decide) (by decide) (by decide)

theorem findSignup_congr {db1 db2 : DB} (h : db1.signups = db2.signups) (a t : Nat) :
    db1.findSignup a t = db2.findSignup a t := by
  unfold DB.findSignup
  rw [h]

theorem pks_after_update (l : List SignUp) (pk0 : Nat) (b : Bool) :
    (l.map (fun s => if s.pk == pk0 then { s with on_trip := b } else s)).map
      (fun s => s.pk) = l.map (fun s => s.pk) := by
  induction l with
  | nil => rfl
  | cons a l ih =>
    simp only [List.map_cons, ih]
    congr 1
    by_cases hc : a.pk = pk0 <;> simp [hc]

theorem findSignup_pk_through_update (db : DB) (pk0 : Nat) (b : Bool) (a t : Nat) :
    ((db.setOnTrip pk0 b).findSignup a t).map (fun s => s.pk) =
      (db.findSignup a t).map (fun s => s.pk) := by
  rw [findSignup_setOnTrip]
  cases hfs : db.findSignup a t with
  | none => rfl
  | some s =>
    simp only [Option.map_some']
    by_cases hc : s.pk = pk0 <;> simp [hc]

theorem findSignup_pk_add_to_waitlist (db : DB) (x : SignUp) (pz : Bool) (a t : Nat) :
    ((add_to_waitlist db x pz).findSignup a t).map (fun s => s.pk) =
      (db.findSignup a t).map (fun s => s.pk) := by
  rw [findSignup_congr (add_to_waitlist_signups_as_setOnTrip db x pz)]
  exact findSignup_pk_through_update db x.pk false a t

theorem filterMap_congr_mem {α β : Type} {f g : α → Option β} {l : List α}
    (h : ∀ a ∈ l, f a = g a) : l.filterMap f = l.filterMap g := by
  induction l with
  | nil => rfl
  | cons a l ih =>
    rw [List.filterMap_cons, List.filterMap_cons, h a (by simp),
      ih (fun x hx => h x (by simp [hx]))]

theorem mem_update_of_ne {l : List SignUp} {s : SignUp} (hmem : s ∈ l) (pk0 : Nat) (b : Bool)
    (hne : s.pk ≠ pk0) :
    s ∈ l.map (fun x => if x.pk == pk0 then { x with on_trip := b } else x) := by
  refine List.mem_map.mpr ⟨s, hmem, ?_⟩
  simp [hne]

/-- Injectivity of primary keys on a table whose key column has no
duplicates. -/
theorem pk_inj {l : List SignUp} (hnodup : (l.map (fun s => s.pk)).Nodup)
    {s1 s2 : SignUp} (h1 : s1 ∈ l) (h2 : s2 ∈ l) (hpk : s1.pk = s2.pk) : s1 = s2 :=
  List.inj_on_of_nodup_map hnodup h1 h2 hpk

/-- Tail waitlisting of a list of participants: it appends the primary keys
of their signups on the trip to the waitlist in order, and leaves every
signup row of an uninvolved participant in place. -/
theorem stWaitlistAll_total_spec (trip : Trip) (pars : List Participant) (st : EngSt)
    (hnodup : (st.db.signups.map (fun s => s.pk)).Nodup)
    (hmem : ∀ par ∈ pars, (st.db.findSignup par.pk trip.pk).isSome = true) :
    ∃ st', stWaitlistAll trip st pars = some st' ∧
      st'.db.waitlist = st.db.waitlist ++
        pars.filterMap (fun par => (st.db.findSignup par.pk trip.pk).map (fun s => s.pk)) ∧
      (∀ s ∈ st.db.signups, (∀ par ∈ pars, s.participant ≠ par.pk) → s ∈ st'.db.signups) ∧
      st'.db.trips = st.db.trips ∧ st'.db.participants = st.db.participants ∧
      st'.handled = st.handled ∧ st'.marks = st.marks := by
  induction pars generalizing st with
  | nil =>
    exact ⟨st, rfl, by simp, fun s hs _ => hs, rfl, rfl, rfl, rfl⟩
  | cons par rest ih =>
    obtain ⟨s1, hs1⟩ := Option.isSome_iff_exists.mp (hmem par (by simp))
    have hs1spec := findSignup_spec hs1
    have hs1mem := findSignup_mem hs1
    obtain ⟨st', hrun, hwl, hsurv, htr, hpar, hh, hm⟩ := ih
      { st.logInfo ("Adding " ++ par.name ++ " to the waitlist") with
        db := add_to_waitlist st.db s1 false }
      (by
        show (((add_to_waitlist st.db s1 false).signups).map (fun s => s.pk)).Nodup
        rw [add_to_waitlist_signups, pks_after_update]
        exact hnodup)
      (by
        intro par2 hpar2
        obtain ⟨s2, hs2⟩ := Option.isSome_iff_exists.mp
          (hmem par2 (List.mem_cons_of_mem _ hpar2))
        have hpk := findSignup_pk_add_to_waitlist st.db s1 false par2.pk trip.pk
        rw [hs2] at hpk
        show ((add_to_waitlist st.db s1 false).findSignup par2.pk trip.pk).isSome = true
        cases hfa : (add_to_waitlist st.db s1 false).findSignup par2.pk trip.pk with
        | none => rw [hfa] at hpk; simp at hpk
        | some s3 => rfl)
    refine ⟨st', ?_, ?_, ?_, ?_, ?_, ?_, ?_⟩
    · show stWaitlistAll trip st (par :: rest) = some st'
      simp only [stWaitlistAll, logInfo_db, hs1]
      exact hrun
    · rw [hwl]
      have hcongr := filterMap_congr_mem
        (fun par2 _ => findSignup_pk_add_to_waitlist st.db s1 false par2.pk trip.pk)
        (l := rest)
      show (add_to_waitlist st.db s1 false).waitlist ++
        rest.filterMap (fun par2 =>
          ((add_to_waitlist st.db s1 false).findSignup par2.pk trip.pk).map
            (fun s => s.pk)) = _
      rw [hcongr, add_to_waitlist_waitlist_false, List.filterMap_cons, hs1]
      simp
    · intro s hs hnon
      have hne_par : s.participant ≠ par.pk := hnon par (by simp)
      have hne_s1 : s ≠ s1 := fun hc => hne_par (by rw [hc, hs1spec.1])
      have hpkne : s.pk ≠ s1.pk := fun hc => hne_s1 (pk_inj hnodup hs hs1mem hc)
      have hs2 : s ∈ (add_to_waitlist st.db s1 false).signups := by
        rw [add_to_waitlist_signups]
        exact mem_update_of_ne hs s1.pk false hpkne
      exact hsurv s hs2 (fun par2 hp2 => hnon par2 (List.mem_cons_of_mem _ hp2))
    · rw [htr]
      exact add_to_waitlist_trips st.db s1 false
    · rw [hpar]
      exact add_to_waitlist_participants st.db s1 false
    · exact hh.trans rfl
    · exact hm.trans rfl

theorem isHandled_logInfo (st : EngSt) (m : String) (pk : Nat) :
    (st.logInfo m).isHandled pk = st.isHandled pk := rfl

/-- With a zero driver quota, a placement attempt without enough open
capacity fails and changes nothing; the handler then waitlists every member
of `to_be_placed` at the tail. -/
theorem stPlaceCore_fail_spec (trip : Trip) (p : Participant) (h : Handler) (st : EngSt)
    (su : SignUp) (trip2 : Trip)
    (hmin : h.min_drivers = 0)
    (hnodup : (st.db.signups.map (fun s => s.pk)).Nodup)
    (hfind : st.db.findSignup p.pk trip.pk = some su)
    (htrip2 : st.db.findTrip su.trip = some trip2)
    (hopen : st.db.open_slots trip2 < h.slots_needed)
    (hmem : ∀ par ∈ h.to_be_placed, (st.db.findSignup par.pk trip.pk).isSome = true) :
    ∃ st3 : EngSt, stPlaceCore trip p h st = some (st3.markHandled p.pk) ∧
      st3.db.waitlist = st.db.waitlist ++
        h.to_be_placed.filterMap (fun par =>
          (st.db.findSignup par.pk trip.pk).map (fun s => s.pk)) ∧
      (∀ s ∈ st.db.signups, (∀ par ∈ h.to_be_placed, s.participant ≠ par.pk) →
        s ∈ st3.db.signups) ∧
      st3.db.trips = st.db.trips := by
  have htry : try_to_place participant_to_bump_default h st su = some (st, false) := by
    cases hguard : (h.is_driver && st.db.open_slots trip2 == 0 && !h.paired)
    · exact try_to_place_fail_noguard _ h st su trip2 htrip2 (by omega) hguard
    · refine try_to_place_fail_quota _ h st su trip2 htrip2 (by omega) hguard ?_
      rw [hmin]
      exact Nat.not_lt_zero _
  obtain ⟨st3, hrun3, hwl3, hsurv3, htr3, hpar3, hh3, hm3⟩ :=
    stWaitlistAll_total_spec trip h.to_be_placed st hnodup hmem
  refine ⟨st3, ?_, hwl3, hsurv3, htr3⟩
  simp only [stPlaceCore, hfind, htry, hrun3]

/-- C10: the single-trip handler is constructed with a zero driver quota, so
the driver-bump branch of `try_to_place` is unreachable (any placement
attempt without enough open capacity returns `false` and changes nothing),
and a failed single-trip placement waitlists each member of `to_be_placed`
with ordinary tail insertion while every signup row of an uninvolved
participant survives untouched. -/
theorem C10_single_trip_never_bumps (st : EngSt) (trip : Trip) (p : Participant)
    (su : SignUp) (trip2 : Trip)
    (hnodup : (st.db.signups.map (fun s => s.pk)).Nodup)
    (hdefer : (mkSingleTripHandler st.db trip p).paired = true →
      (match (mkSingleTripHandler st.db trip p).paired_par with
       | some q => st.isHandled q.pk
       | none => false) = true)
    (hfind : st.db.findSignup p.pk trip.pk = some su)
    (htrip2 : st.db.findTrip su.trip = some trip2)
    (hopen : st.db.open_slots trip2 < (mkSingleTripHandler st.db trip p).slots_needed)
    (hmem : ∀ par ∈ (mkSingleTripHandler st.db trip p).to_be_placed,
      (st.db.findSignup par.pk trip.pk).isSome = true) :
    (mkSingleTripHandler st.db trip p).min_drivers = 0 ∧
    try_to_place participant_to_bump_default (mkSingleTripHandler st.db trip p) st su =
      some (st, false) ∧
    (stPlaceParticipant trip p st).map (fun st1 =>
      (st1.db.waitlist,
        st.db.signups.all (fun s =>
          ((mkSingleTripHandler st.db trip p).to_be_placed.any
            (fun par => s.participant == par.pk)) || decide (s ∈ st1.db.signups)))) =
      some (st.db.waitlist ++
        (mkSingleTripHandler st.db trip p).to_be_placed.filterMap
          (fun par => (st.db.findSignup par.pk trip.pk).map (fun s => s.pk)), true) := by
  have htry : try_to_place participant_to_bump_default (mkSingleTripHandler st.db trip p)
      st su = some (st, false) := by
    cases hguard : ((mkSingleTripHandler st.db trip p).is_driver &&
        st.db.open_slots trip2 == 0 && !(mkSingleTripHandler st.db trip p).paired)
    · exact try_to_place_fail_noguard _ _ st su trip2 htrip2 (by omega) hguard
    · refine try_to_place_fail_quota _ _ st su trip2 htrip2 (by omega) hguard ?_
      rw [show (mkSingleTripHandler st.db trip p).min_drivers = 0 from rfl]
      exact Nat.not_lt_zero _
  refine ⟨rfl, htry, ?_⟩
  have hfinish : ∀ st3 : EngSt,
      st3.db.waitlist = st.db.waitlist ++
        (mkSingleTripHandler st.db trip p).to_be_placed.filterMap
          (fun par => (st.db.findSignup par.pk trip.pk).map (fun s => s.pk)) →
      (∀ s ∈ st.db.signups,
        (∀ par ∈ (mkSingleTripHandler st.db trip p).to_be_placed,
          s.participant ≠ par.pk) → s ∈ st3.db.signups) →
      (some (st3.markHandled p.pk)).map (fun st1 =>
        (st1.db.waitlist,
          st.db.signups.all (fun s =>
            ((mkSingleTripHandler st.db trip p).to_be_placed.any
              (fun par => s.participant == par.pk)) || decide (s ∈ st1.db.signups)))) =
        some (st.db.waitlist ++
          (mkSingleTripHandler st.db trip p).to_be_placed.filterMap
            (fun par => (st.db.findSignup par.pk trip.pk).map (fun s => s.pk)), true) := by
    intro st3 hwl3 hsurv3
    simp only [Option.map_some', Option.some.injEq, Prod.mk.injEq, markHandled_db]
    refine ⟨hwl3, ?_⟩
    rw [List.all_eq_true]
    intro s hs
    cases hany : ((mkSingleTripHandler st.db trip p).to_be_placed.any
        (fun par => s.participant == par.pk))
    · have hnon : ∀ par ∈ (mkSingleTripHandler st.db trip p).to_be_placed,
          s.participant ≠ par.pk := by
        intro par hpar hc
        have hx : ((mkSingleTripHandler st.db trip p).to_be_placed.any
            (fun par => s.participant == par.pk)) = true :=
          List.any_eq_true.mpr ⟨par, hpar, by simp [hc]⟩
        rw [hany] at hx
        exact Bool.false_ne_true hx
      have hm := hsurv3 s hs hnon
      simp [hm]
    · simp
  cases hp : (mkSingleTripHandler st.db trip p).paired
  · have hunfold : stPlaceParticipant trip p st =
        stPlaceCore trip p (mkSingleTripHandler st.db trip p) st := by
      simp only [stPlaceParticipant, hp, Bool.false_eq_true, if_false]
    rw [hunfold]
    obtain ⟨st3, hrun3, hwl3, hsurv3, htr3⟩ :=
      stPlaceCore_fail_spec trip p _ st su trip2 rfl hnodup hfind htrip2 hopen hmem
    rw [hrun3]
    exact hfinish st3 hwl3 hsurv3
  · cases hpp2 : (mkSingleTripHandler st.db trip p).paired_par with
    | none =>
      have hx := hdefer hp
      rw [hpp2] at hx
      simp at hx
    | some q =>
      have hq := hdefer hp
      rw [hpp2] at hq
      simp only [] at hq
      have hunfold : stPlaceParticipant trip p st =
          stPlaceCore trip p (mkSingleTripHandler st.db trip p)
            (st.logInfo (p.name ++ " is paired with " ++ q.name)) := by
        simp only [stPlaceParticipant, hp, hpp2, isHandled_logInfo, hq]
        simp
      rw [hunfold]
      obtain ⟨st3, hrun3, hwl3, hsurv3, htr3⟩ :=
        stPlaceCore_fail_spec trip p (mkSingleTripHandler st.db trip p)
          (st.logInfo (p.name ++ " is paired with " ++ q.name)) su trip2 rfl
          hnodup hfind htrip2 hopen hmem
      rw [hrun3]
      exact hfinish st3 hwl3 hsurv3

/-- Witness for C10: the full example trip; the unpaired driver cannot be
placed by the single-trip handler and goes to the tail of the waitlist. -/
theorem C10_single_trip_never_bumps_witness :
    (mkSingleTripHandler exStFull.db exT exD).min_drivers = 0 ∧
    try_to_place participant_to_bump_default (mkSingleTripHandler exStFull.db exT exD)
      exStFull exSu3 = some (exStFull, false) ∧
    (stPlaceParticipant exT exD exStFull).map (fun st1 =>
      (st1.db.waitlist,
        exStFull.db.signups.all (fun s =>
          ((mkSingleTripHandler exStFull.db exT exD).to_be_placed.any
            (fun par => s.participant == par.pk)) || decide (s ∈ st1.db.signups)))) =
      some (exStFull.db.waitlist ++
        (mkSingleTripHandler exStFull.db exT exD).to_be_placed.filterMap
          (fun par => (exStFull.db.findSignup par.pk exT.pk).map (fun s => s.pk)), true) :=
  C10_single_trip_never_bumps exStFull exT exD exSu3 exT
    (by decide) (by decide) (by decide) (by decide) (by decide) (by decide)

/-! ### Frame lemmas for the placement steps -/

theorem RunnerFrame.refl (st : EngSt) : RunnerFrame st st := ⟨rfl, rfl, rfl, rfl⟩

theorem RunnerFrame.trans {st1 st2 st3 : EngSt} (h1 : RunnerFrame st1 st2)
    (h2 : RunnerFrame st2 st3) : RunnerFrame st1 st3 :=
  ⟨h2.1.trans h1.1, h2.2.1.trans h1.2.1, h2.2.2.1.trans h1.2.2.1, h2.2.2.2.trans h1.2.2.2⟩

theorem place_all_shape {h : Handler} {st : EngSt} {su : SignUp} {st1 : EngSt}
    (hres : place_all_on_trip h st su = some st1) : RunnerFrame st st1 := by
  cases hp : h.paired
  · simp only [place_all_on_trip, hp, Bool.false_eq_true, if_false,
      Option.some.injEq] at hres
    subst hres
    exact ⟨rfl, rfl, rfl, rfl⟩
  · simp only [place_all_on_trip, hp, if_true] at hres
    cases hqq : h.paired_par with
    | none =>
      simp only [hqq] at hres
      exact Option.noConfusion hres
    | some q =>
      simp only [hqq] at hres
      cases hfs : (st.place_on_trip su).db.findSignup q.pk su.trip with
      | none =>
        simp only [hfs] at hres
        exact Option.noConfusion hres
      | some ps =>
        simp only [hfs, Option.some.injEq] at hres
        subst hres
        exact ⟨rfl, rfl, rfl, rfl⟩

theorem try_to_place_shape {sel : DB → Trip → Option SignUp} {h : Handler} {st : EngSt}
    {su : SignUp} {st1 : EngSt} {r : Bool}
    (hres : try_to_place sel h st su = some (st1, r)) : RunnerFrame st st1 := by
  cases hft : st.db.findTrip su.trip with
  | none =>
    simp only [try_to_place, hft] at hres
    exact Option.noConfusion hres
  | some trip =>
    simp only [try_to_place, hft] at hres
    by_cases hopen : h.slots_needed ≤ st.db.open_slots trip
    · rw [if_pos hopen] at hres
      cases hpa : place_all_on_trip h st su with
      | none => rw [hpa] at hres; simp at hres
      | some st2 =>
        rw [hpa] at hres
        simp only [Option.map_some', Option.some.injEq, Prod.mk.injEq] at hres
        obtain ⟨h1, -⟩ := hres
        subst h1
        exact place_all_shape hpa
    · rw [if_neg hopen] at hres
      cases hguard : (h.is_driver && st.db.open_slots trip == 0 && !h.paired)
      · simp only [hguard, Bool.false_eq_true, if_false, Option.some.injEq,
          Prod.mk.injEq] at hres
        obtain ⟨h1, -⟩ := hres
        subst h1
        exact ⟨rfl, rfl, rfl, rfl⟩
      · simp only [hguard, if_true] at hres
        by_cases hq : count_drivers_on_trip st.db trip < h.min_drivers
        · rw [if_pos hq] at hres
          simp only [EngSt.logInfo] at hres
          cases hsel : sel st.db trip with
          | none =>
            simp only [hsel] at hres
            exact Option.noConfusion hres
          | some b =>
            simp only [hsel, Option.some.injEq, Prod.mk.injEq] at hres
            obtain ⟨h1, -⟩ := hres
            subst h1
            refine ⟨?_, ?_, rfl, rfl⟩
            · rw [setOnTrip_trips, add_to_waitlist_trips]
            · rw [setOnTrip_participants, add_to_waitlist_participants]
        · rw [if_neg hq] at hres
          simp only [Option.some.injEq, Prod.mk.injEq] at hres
          obtain ⟨h1, -⟩ := hres
          subst h1
          exact ⟨rfl, rfl, rfl, rfl⟩

theorem stWaitlistAll_shape {trip : Trip} {pars : List Participant} {st st1 : EngSt}
    (hres : stWaitlistAll trip st pars = some st1) : RunnerFrame st st1 := by
  induction pars generalizing st with
  | nil =>
    simp only [stWaitlistAll, Option.some.injEq] at hres
    subst hres
    exact ⟨rfl, rfl, rfl, rfl⟩
  | cons par rest ih =>
    simp only [stWaitlistAll, logInfo_db] at hres
    cases hfs : st.db.findSignup par.pk trip.pk with
    | none =>
      simp only [hfs] at hres
      exact Option.noConfusion hres
    | some s =>
      simp only [hfs] at hres
      have hstep := ih hres
      refine RunnerFrame.trans ?_ hstep
      refine ⟨?_, ?_, rfl, rfl⟩
      · exact (add_to_waitlist_trips st.db s false).symm
      · exact (add_to_waitlist_participants st.db s false).symm

theorem wsWaitlistAll_shape {h : Handler} {favTrip : Nat} {tn : String}
    {pars : List Participant} {st st1 : EngSt}
    (hres : wsWaitlistAll h favTrip tn st pars = some st1) : RunnerFrame st st1 := by
  induction pars generalizing st with
  | nil =>
    simp only [wsWaitlistAll, Option.some.injEq] at hres
    subst hres
    exact ⟨rfl, rfl, rfl, rfl⟩
  | cons par rest ih =>
    simp only [wsWaitlistAll] at hres
    cases hfs : st.db.findSignup par.pk favTrip with
    | none =>
      simp only [hfs] at hres
      exact Option.noConfusion hres
    | some s =>
      simp only [hfs] at hres
      have hstep := ih hres
      refine RunnerFrame.trans ?_ hstep
      refine ⟨?_, ?_, rfl, rfl⟩
      · exact (add_to_waitlist_trips st.db s false).symm
      · exact (add_to_waitlist_participants st.db s false).symm

theorem wsPlaceLoop_shape {ctx : RankerCtx} {h : Handler} {fs : List SignUp}
    {st st1 : EngSt} {r : Bool}
    (hres : wsPlaceLoop ctx h st fs = some (st1, r)) : RunnerFrame st st1 := by
  induction fs generalizing st with
  | nil =>
    simp only [wsPlaceLoop, Option.some.injEq, Prod.mk.injEq] at hres
    obtain ⟨h1, -⟩ := hres
    subst h1
    exact ⟨rfl, rfl, rfl, rfl⟩
  | cons su rest ih =>
    simp only [wsPlaceLoop] at hres
    cases htp : try_to_place (lowest_non_driver ctx) h st su with
    | none =>
      simp only [htp] at hres
      exact Option.noConfusion hres
    | some pr =>
      obtain ⟨st2, r2⟩ := pr
      have hstep := try_to_place_shape htp
      cases r2
      · simp only [htp] at hres
        have hmid : RunnerFrame st2 (st2.logInfo ("Cannot place " ++ h.par_text ++ " on " ++
            match st2.db.findTrip su.trip with
            | some t => t.name
            | none => "")) := ⟨rfl, rfl, rfl, rfl⟩
        exact RunnerFrame.trans hstep (RunnerFrame.trans hmid (ih hres))
      · simp only [htp, Option.some.injEq, Prod.mk.injEq] at hres
        obtain ⟨h1, -⟩ := hres
        subst h1
        exact hstep

theorem isHandled_of_handled_cons {st2 st : EngSt} {pk : Nat}
    (h : st2.handled = (pk, true) :: st.handled) (x : Nat) :
    st2.isHandled x = if x = pk then true else st.isHandled x := by
  by_cases hx : x = pk
  · subst hx
    unfold EngSt.isHandled
    rw [h]
    simp [List.find?]
  · rw [if_neg hx]
    have hbeq : (pk == x) = false := by
      simp
      exact fun hc => hx hc.symm
    unfold EngSt.isHandled
    rw [h]
    simp only [List.find?, hbeq]

theorem stPlaceCore_shape {trip : Trip} {p : Participant} {h : Handler} {st st1 : EngSt}
    (hres : stPlaceCore trip p h st = some st1) :
    st1.db.trips = st.db.trips ∧ st1.db.participants = st.db.participants ∧
    st1.handled = (p.pk, true) :: st.handled ∧ st1.marks = st.marks ++ [p.pk] := by
  simp only [stPlaceCore] at hres
  cases hfs : st.db.findSignup p.pk trip.pk with
  | none =>
    simp only [hfs] at hres
    exact Option.noConfusion hres
  | some su =>
    simp only [hfs] at hres
    cases htp : try_to_place participant_to_bump_default h st su with
    | none =>
      simp only [htp] at hres
      exact Option.noConfusion hres
    | some pr =>
      obtain ⟨st2, r2⟩ := pr
      have hstep := try_to_place_shape htp
      cases r2
      · simp only [htp] at hres
        cases hwl : stWaitlistAll trip st2 h.to_be_placed with
        | none =>
          simp only [hwl] at hres
          exact Option.noConfusion hres
        | some st3 =>
          simp only [hwl, Option.some.injEq] at hres
          subst hres
          have hwls := stWaitlistAll_shape hwl
          refine ⟨?_, ?_, ?_, ?_⟩
          · rw [markHandled_db, hwls.1, hstep.1]
          · rw [markHandled_db, hwls.2.1, hstep.2.1]
          · rw [markHandled_handled, hwls.2.2.1, hstep.2.2.1]
          · rw [markHandled_marks, hwls.2.2.2, hstep.2.2.2]
      · simp only [htp, Option.some.injEq] at hres
        subst hres
        refine ⟨?_, ?_, ?_, ?_⟩
        · rw [markHandled_db, hstep.1]
        · rw [markHandled_db, hstep.2.1]
        · rw [markHandled_handled, hstep.2.2.1]
        · rw [markHandled_marks, hstep.2.2.2]

theorem wsPlaceCore_shape {ctx : RankerCtx} {p : Participant} {h : Handler} {st st1 : EngSt}
    (hres : wsPlaceCore ctx p h st = some st1) :
    st1.db.trips = st.db.trips ∧ st1.db.participants = st.db.participants ∧
    st1.handled = (p.pk, true) :: st.handled ∧ st1.marks = st.marks ++ [p.pk] := by
  simp only [wsPlaceCore] at hres
  cases hfs2 : future_signups ctx.today st.db h with
  | nil =>
    simp only [hfs2, List.isEmpty_nil, if_true, Option.some.injEq] at hres
    subst hres
    exact ⟨rfl, rfl, rfl, rfl⟩
  | cons fav fsrest =>
    simp only [hfs2, List.isEmpty_cons, Bool.false_eq_true, if_false] at hres
    cases hloop : wsPlaceLoop ctx h st (fav :: fsrest) with
    | none =>
      simp only [hloop] at hres
      exact Option.noConfusion hres
    | some pr =>
      obtain ⟨st2, r2⟩ := pr
      have hstep := wsPlaceLoop_shape hloop
      cases r2
      · simp only [hloop] at hres
        cases hwl : wsWaitlistAll h fav.trip
            (match st2.db.findTrip fav.trip with
             | some t => t.name
             | none => "")
            (st2.logInfo ("No trips are open for " ++ h.par_text)) h.to_be_placed with
        | none =>
          simp only [hwl] at hres
          exact Option.noConfusion hres
        | some st4 =>
          simp only [hwl, Option.some.injEq] at hres
          subst hres
          have hwls := wsWaitlistAll_shape hwl
          refine ⟨?_, ?_, ?_, ?_⟩
          · rw [markHandled_db, hwls.1, logInfo_db, hstep.1]
          · rw [markHandled_db, hwls.2.1, logInfo_db, hstep.2.1]
          · rw [markHandled_handled, hwls.2.2.1, logInfo_handled, hstep.2.2.1]
          · rw [markHandled_marks, hwls.2.2.2, logInfo_marks, hstep.2.2.2]
      · simp only [hloop, Option.some.injEq] at hres
        subst hres
        refine ⟨?_, ?_, ?_, ?_⟩
        · rw [markHandled_db, hstep.1]
        · rw [markHandled_db, hstep.2.1]
        · rw [markHandled_handled, hstep.2.2.1]
        · rw [markHandled_marks, hstep.2.2.2]

theorem stPlaceParticipant_shape {trip : Trip} {p : Participant} {st st1 : EngSt}
    (hres : stPlaceParticipant trip p st = some st1) :
    st1.db.trips = st.db.trips ∧ st1.db.participants = st.db.participants ∧
    st1.handled = (p.pk, true) :: st.handled ∧ st1.marks = st.marks ++ [p.pk] := by
  simp only [stPlaceParticipant] at hres
  cases hp : (mkSingleTripHandler st.db trip p).paired
  · simp only [hp, Bool.false_eq_true, if_false] at hres
    exact stPlaceCore_shape hres
  · simp only [hp, if_true] at hres
    cases hpp : (mkSingleTripHandler st.db trip p).paired_par with
    | none =>
      simp only [hpp] at hres
      exact Option.noConfusion hres
    | some q =>
      simp only [hpp] at hres
      cases hb : st.isHandled q.pk
      · simp only [isHandled_logInfo, hb, Bool.not_false, if_true,
          Option.some.injEq] at hres
        subst hres
        exact ⟨rfl, rfl, rfl, rfl⟩
      · simp only [isHandled_logInfo, hb, Bool.not_true, Bool.false_eq_true,
          if_false] at hres
        have hc := stPlaceCore_shape hres
        exact ⟨hc.1, hc.2.1, hc.2.2.1, hc.2.2.2⟩

theorem wsPlaceParticipant_shape {ctx : RankerCtx} {p : Participant} {st st1 : EngSt}
    (hres : wsPlaceParticipant ctx p st = some st1) :
    st1.db.trips = st.db.trips ∧ st1.db.participants = st.db.participants ∧
    st1.handled = (p.pk, true) :: st.handled ∧ st1.marks = st.marks ++ [p.pk] := by
  simp only [wsPlaceParticipant] at hres
  cases hp : (mkWSHandler st.db p).paired
  · simp only [hp, Bool.false_eq_true, if_false] at hres
    exact wsPlaceCore_shape hres
  · simp only [hp, if_true] at hres
    cases hpp : (mkWSHandler st.db p).paired_par with
    | none =>
      simp only [hpp] at hres
      exact Option.noConfusion hres
    | some q =>
      simp only [hpp] at hres
      cases hb : st.isHandled q.pk
      · simp only [isHandled_logInfo, hb, Bool.not_false, if_true,
          Option.some.injEq] at hres
        subst hres
        exact ⟨rfl, rfl, rfl, rfl⟩
      · simp only [isHandled_logInfo, hb, Bool.not_true, Bool.false_eq_true,
          if_false] at hres
        have hc := wsPlaceCore_shape hres
        exact ⟨hc.1, hc.2.1, hc.2.2.1, hc.2.2.2⟩

theorem wsAssignTrips_spec {ctx : RankerCtx} {ranked : List Participant} {st st1 : EngSt}
    (hres : wsAssignTrips ctx st ranked = some st1) :
    st1.db.trips = st.db.trips ∧ st1.db.participants = st.db.participants ∧
    st1.marks = st.marks ++ ranked.map (fun p => p.pk) ∧
    (∀ x, st1.isHandled x = (ranked.any (fun p => p.pk == x) || st.isHandled x)) := by
  induction ranked generalizing st with
  | nil =>
    simp only [wsAssignTrips, Option.some.injEq] at hres
    subst hres
    exact ⟨rfl, rfl, by simp, fun x => by simp⟩
  | cons p rest ih =>
    simp only [wsAssignTrips] at hres
    cases hpl : wsPlaceParticipant ctx p
        ((st.logInfo ("Handling " ++ p.name)).logInfo
          (String.mk (List.replicate ("Handling " ++ p.name).length '-'))) with
    | none =>
      simp only [hpl] at hres
      exact Option.noConfusion hres
    | some st2 =>
      simp only [hpl] at hres
      have hstep := wsPlaceParticipant_shape hpl
      have hrest := ih hres
      have hstep_handled : st2.handled = (p.pk, true) :: st.handled := hstep.2.2.1
      have hstep_marks : st2.marks = st.marks ++ [p.pk] := hstep.2.2.2
      have hstep_trips : st2.db.trips = st.db.trips := hstep.1
      have hstep_pars : st2.db.participants = st.db.participants := hstep.2.1
      refine ⟨?_, ?_, ?_, ?_⟩
      · rw [hrest.1, hstep_trips]
      · rw [hrest.2.1, hstep_pars]
      · rw [hrest.2.2.1, hstep_marks]
        simp
      · intro x
        rw [hrest.2.2.2 x, List.any_cons]
        rw [isHandled_of_handled_cons hstep_handled x]
        by_cases hx : x = p.pk
        · subst hx
          simp
        · have hbx : (p.pk == x) = false := by
            simp
            exact fun hc => hx hc.symm
          rw [if_neg hx, hbx]
          simp

theorem stRunAll_spec {trip : Trip} {ranked : List Participant} {st st1 : EngSt}
    (hres : stRunAll trip st ranked = some st1) :
    st1.db.trips = st.db.trips ∧ st1.db.participants = st.db.participants ∧
    st1.marks = st.marks ++ ranked.map (fun p => p.pk) ∧
    (∀ x, st1.isHandled x = (ranked.any (fun p => p.pk == x) || st.isHandled x)) := by
  induction ranked generalizing st with
  | nil =>
    simp only [stRunAll, Option.some.injEq] at hres
    subst hres
    exact ⟨rfl, rfl, by simp, fun x => by simp⟩
  | cons p rest ih =>
    simp only [stRunAll] at hres
    cases hpl : stPlaceParticipant trip p st with
    | none =>
      simp only [hpl] at hres
      exact Option.noConfusion hres
    | some st2 =>
      simp only [hpl] at hres
      have hstep := stPlaceParticipant_shape hpl
      have hrest := ih hres
      refine ⟨?_, ?_, ?_, ?_⟩
      · rw [hrest.1, hstep.1]
      · rw [hrest.2.1, hstep.2.1]
      · rw [hrest.2.2.1, hstep.2.2.2]
        simp
      · intro x
        rw [hrest.2.2.2 x, List.any_cons]
        rw [isHandled_of_handled_cons hstep.2.2.1 x]
        by_cases hx : x = p.pk
        · subst hx
          simp
        · have hbx : (p.pk == x) = false := by
            simp
            exact fun hc => hx hc.symm
          rw [if_neg hx, hbx]
          simp

theorem findTrip_map_update (l : List Trip) (tripPk : Nat) (u : Trip) (hu : u.pk = tripPk)
    (hmem : ∃ t0 ∈ l, t0.pk = tripPk) :
    (l.map (fun t => if t.pk == tripPk then u else t)).find? (fun t => t.pk == tripPk) =
      some u := by
  induction l with
  | nil =>
    obtain ⟨t0, h0, -⟩ := hmem
    simp at h0
  | cons a l ih =>
    simp only [List.map_cons]
    by_cases hc : a.pk = tripPk
    · rw [show (if a.pk == tripPk then u else a) = u by simp [hc]]
      simp [List.find?, hu]
    · rw [show (if a.pk == tripPk then u else a) = a by simp [hc]]
      have hb : (a.pk == tripPk) = false := by simp [hc]
      simp only [List.find?, hb]
      apply ih
      obtain ⟨t0, h0, hpk0⟩ := hmem
      rcases List.mem_cons.mp h0 with h0 | h0
      · exact absurd (h0 ▸ hpk0) hc
      · exact ⟨t0, h0, hpk0⟩

/-- C9: the single-trip lottery run is a strict no-op (and stores nothing)
when the trip is not in lottery mode; when the trip is in lottery mode and
the run completes, the trip record is saved with the first-come,
first-serve algorithm and with exactly the accumulated log text of the
run. -/
theorem C9_single_trip_run (rand : Nat → Int) (trip : Trip) (db : DB)
    (hmem : ∃ t0 ∈ db.trips, t0.pk = trip.pk) :
    (trip.algorithm ≠ Algorithm.lottery → singleTripRun rand trip db = some (db, [])) ∧
    (trip.algorithm = Algorithm.lottery →
      (singleTripRun rand trip db).all (fun pr =>
        decide (pr.1.findTrip trip.pk =
          some { trip with
                 algorithm := Algorithm.fcfs,
                 lottery_log := logText pr.2 })) = true) := by
  refine ⟨?_, ?_⟩
  · intro hne
    unfold singleTripRun
    rw [if_neg hne]
  · intro hlot
    unfold singleTripRun
    rw [if_pos hlot]
    cases hrk : List.insertionSort (stParLe rand)
        ((db.signups.filter (fun s => s.trip == trip.pk)).filterMap
          (fun s => db.findPar s.participant)) with
    | nil => simp [hrk]
    | cons p0 prest =>
      simp only [hrk]
      cases hra : stRunAll trip
          { db := db,
            log := ["Randomly ordering (preference to MIT affiliates)...",
              "Participants will be handled in the following order:"] ++
              rosterLines (((p0 :: prest).map (fun p => p.name.length)).foldl max 0)
                (p0 :: prest) ++ [String.mk (List.replicate 50 '-')],
            handled := [], marks := [] } (p0 :: prest) with
      | none => simp [hra]
      | some stR =>
        simp only [hra, Option.all_some]
        have htrips : stR.db.trips = db.trips := (stRunAll_spec hra).1
        rw [decide_eq_true_eq]
        show (DB.findTrip _ trip.pk) = _
        unfold DB.findTrip
        show (stR.db.trips.map (fun t =>
          if t.pk == trip.pk then
            { trip with algorithm := Algorithm.fcfs, lottery_log := logText stR.log }
          else t)).find? (fun t => t.pk == trip.pk) = _
        rw [htrips]
        exact findTrip_map_update db.trips trip.pk _ rfl hmem

/-- Witness for C9 at the lottery example trip. -/
theorem C9_single_trip_run_witness :
    (singleTripRun (fun _ => 0) exT exDB).all (fun pr =>
      decide (pr.1.findTrip exT.pk =
        some { exT with
               algorithm := Algorithm.fcfs,
               lottery_log := logText pr.2 })) = true :=
  (C9_single_trip_run (fun _ => 0) exT exDB (by decide)).2 (by decide)

theorem free_for_all_trips (noon : Int) (st : EngSt) :
    (free_for_all noon st).db.trips = st.db.trips.map (fun t =>
      if decide (t.activity = "winter_school") && decide (t.algorithm = Algorithm.lottery) then
        { t with algorithm := Algorithm.fcfs, signups_open_at := noon }
      else t) := rfl

theorem free_for_all_marks (noon : Int) (st : EngSt) :
    (free_for_all noon st).marks = st.marks := rfl

theorem zip_map_all {α : Type} (l : List α) (f : α → α) (check : α × α → Bool)
    (h : ∀ t ∈ l, check (t, f t) = true) : (l.zip (l.map f)).all check = true := by
  induction l with
  | nil => rfl
  | cons a l ih =>
    simp only [List.map_cons, List.zip_cons_cons, List.all_cons]
    rw [h a (by simp), ih (fun t ht => h t (by simp [ht]))]
    rfl

theorem zip_self_all {α : Type} (l : List α) (check : α × α → Bool)
    (h : ∀ t ∈ l, check (t, t) = true) : (l.zip l).all check = true := by
  induction l with
  | nil => rfl
  | cons a l ih =>
    simp only [List.zip_cons_cons, List.all_cons]
    rw [h a (by simp), ih (fun t ht => h t (by simp [ht]))]
    rfl

/-- C8: after a completed season run, every winter-school trip that was in
lottery mode is in first-come, first-serve mode with its reopening time set
to the closest upcoming Wednesday noon (the external date helper's value,
`noon`); and in both the season run and the single-trip run, no trip ever
transitions from first-come, first-serve back to lottery. -/
theorem C8_fcfs_transitions (ctx : RankerCtx) (noon : Int) (db : DB)
    (rand : Nat → Int) (trip : Trip) (db2 : DB) :
    (wsRun ctx noon db).all (fun st1 =>
      (db.trips.length == st1.db.trips.length) &&
      (db.trips.zip st1.db.trips).all (fun pr =>
        (!(decide (pr.1.activity = "winter_school") &&
           decide (pr.1.algorithm = Algorithm.lottery)) ||
         (decide (pr.2.algorithm = Algorithm.fcfs) && pr.2.signups_open_at == noon)) &&
        (!(decide (pr.2.algorithm = Algorithm.lottery)) ||
         decide (pr.1.algorithm = Algorithm.lottery)))) = true ∧
    (singleTripRun rand trip db2).all (fun pr =>
      (db2.trips.length == pr.1.trips.length) &&
      (db2.trips.zip pr.1.trips).all (fun tt =>
        !(decide (tt.2.algorithm = Algorithm.lottery)) ||
        decide (tt.1.algorithm = Algorithm.lottery))) = true := by
  constructor
  · cases hrun : wsRun ctx noon db with
    | none => rfl
    | some st1 =>
      unfold wsRun at hrun
      cases hass : wsAssignTrips ctx { db := db, log := [], handled := [], marks := [] }
          (ws_ranked ctx db) with
      | none =>
        rw [hass] at hrun
        exact Option.noConfusion hrun
      | some stA =>
        rw [hass] at hrun
        simp only [Option.some.injEq] at hrun
        have htr : stA.db.trips = db.trips := (wsAssignTrips_spec hass).1
        subst hrun
        simp only [Option.all_some]
        rw [Bool.and_eq_true]
        constructor
        · rw [free_for_all_trips, htr]
          simp
        · rw [free_for_all_trips, htr]
          apply zip_map_all
          intro t _
          by_cases hcnd : (decide (t.activity = "winter_school") &&
              decide (t.algorithm = Algorithm.lottery)) = true
          · rw [if_pos hcnd]
            simp
          · rw [if_neg hcnd]
            rw [Bool.and_eq_true]
            constructor
            · rw [Bool.or_eq_true]
              left
              rw [Bool.not_eq_true']
              exact Bool.not_eq_true _ ▸ (Bool.eq_false_iff.mpr hcnd)
            · by_cases hl : t.algorithm = Algorithm.lottery <;> simp [hl]
  · cases hrun2 : singleTripRun rand trip db2 with
    | none => rfl
    | some pr =>
      unfold singleTripRun at hrun2
      by_cases hlot : trip.algorithm = Algorithm.lottery
      · rw [if_pos hlot] at hrun2
        cases hrk : List.insertionSort (stParLe rand)
            ((db2.signups.filter (fun s => s.trip == trip.pk)).filterMap
              (fun s => db2.findPar s.participant)) with
        | nil =>
          simp only [hrk] at hrun2
          exact Option.noConfusion hrun2
        | cons p0 prest =>
          simp only [hrk] at hrun2
          cases hra : stRunAll trip
              { db := db2,
                log := ["Randomly ordering (preference to MIT affiliates)...",
                  "Participants will be handled in the following order:"] ++
                  rosterLines (((p0 :: prest).map (fun p => p.name.length)).foldl max 0)
                    (p0 :: prest) ++ [String.mk (List.replicate 50 '-')],
                handled := [], marks := [] } (p0 :: prest) with
          | none =>
            simp only [hra] at hrun2
            exact Option.noConfusion hrun2
          | some stR =>
            simp only [hra, Option.some.injEq] at hrun2
            have htr : stR.db.trips = db2.trips := (stRunAll_spec hra).1
            subst hrun2
            simp only [Option.all_some]
            rw [Bool.and_eq_true]
            constructor
            · show (db2.trips.length == (stR.db.trips.map _).length) = true
              rw [htr]
              simp
            · show ((db2.trips.zip (stR.db.trips.map _)).all _) = true
              rw [htr]
              apply zip_map_all
              intro t _
              by_cases hc : t.pk = trip.pk
              · simp [hc]
              · simp [hc]
      · rw [if_neg hlot] at hrun2
        simp only [Option.some.injEq] at hrun2
        subst hrun2
        simp only [Option.all_some]
        rw [Bool.and_eq_true]
        refine ⟨by simp, ?_⟩
        apply zip_self_all
        intro t _
        by_cases hl : t.algorithm = Algorithm.lottery <;> simp [hl]

/-- Witness for C8 on the example world (both run variants). -/
theorem C8_fcfs_transitions_witness :
    (wsRun exCtx 777 exDB).all (fun st1 =>
      (exDB.trips.length == st1.db.trips.length) &&
      (exDB.trips.zip st1.db.trips).all (fun pr =>
        (!(decide (pr.1.activity = "winter_school") &&
           decide (pr.1.algorithm = Algorithm.lottery)) ||
         (decide (pr.2.algorithm = Algorithm.fcfs) && pr.2.signups_open_at == 777)) &&
        (!(decide (pr.2.algorithm = Algorithm.lottery)) ||
         decide (pr.1.algorithm = Algorithm.lottery)))) = true ∧
    (singleTripRun (fun _ => 0) exTfcfs exDBfcfs).all (fun pr =>
      (exDBfcfs.trips.length == pr.1.trips.length) &&
      (exDBfcfs.trips.zip pr.1.trips).all (fun tt =>
        !(decide (tt.2.algorithm = Algorithm.lottery)) ||
        decide (tt.1.algorithm = Algorithm.lottery))) = true :=
  C8_fcfs_transitions exCtx 777 exDB (fun _ => 0) exTfcfs exDBfcfs

theorem wsAssignTrips_fresh {ctx : RankerCtx} {ranked : List Participant} {st st1 : EngSt}
    (hres : wsAssignTrips ctx st ranked = some st1)
    (hnodup : (ranked.map (fun p => p.pk)).Nodup)
    (hfresh : ∀ p ∈ ranked, st.isHandled p.pk = false) :
    wsAllFresh ctx st ranked = true := by
  induction ranked generalizing st with
  | nil => rfl
  | cons p rest ih =>
    simp only [wsAssignTrips] at hres
    cases hpl : wsPlaceParticipant ctx p
        ((st.logInfo ("Handling " ++ p.name)).logInfo
          (String.mk (List.replicate ("Handling " ++ p.name).length '-'))) with
    | none =>
      simp only [hpl] at hres
      exact Option.noConfusion hres
    | some st2 =>
      simp only [hpl] at hres
      simp only [wsAllFresh, hpl]
      rw [Bool.and_eq_true]
      simp only [List.map_cons] at hnodup
      obtain ⟨hnp, hnr⟩ := List.nodup_cons.mp hnodup
      constructor
      · simp only [isHandled_logInfo]
        rw [hfresh p (by simp)]
        rfl
      · have hstep := wsPlaceParticipant_shape hpl
        have hhd : st2.handled = (p.pk, true) :: st.handled := hstep.2.2.1
        apply ih hres hnr
        intro q hq
        rw [isHandled_of_handled_cons hhd]
        have hqne : q.pk ≠ p.pk := by
          intro hc
          exact hnp (hc ▸ List.mem_map_of_mem (fun p => p.pk) hq)
        rw [if_neg hqne]
        exact hfresh q (List.mem_cons_of_mem _ hq)

theorem stRunAll_fresh {trip : Trip} {ranked : List Participant} {st st1 : EngSt}
    (hres : stRunAll trip st ranked = some st1)
    (hnodup : (ranked.map (fun p => p.pk)).Nodup)
    (hfresh : ∀ p ∈ ranked, st.isHandled p.pk = false) :
    stAllFresh trip st ranked = true := by
  induction ranked generalizing st with
  | nil => rfl
  | cons p rest ih =>
    simp only [stRunAll] at hres
    cases hpl : stPlaceParticipant trip p st with
    | none =>
      simp only [hpl] at hres
      exact Option.noConfusion hres
    | some st2 =>
      simp only [hpl] at hres
      simp only [stAllFresh, hpl]
      rw [Bool.and_eq_true]
      simp only [List.map_cons] at hnodup
      obtain ⟨hnp, hnr⟩ := List.nodup_cons.mp hnodup
      constructor
      · rw [hfresh p (by simp)]
        rfl
      · have hstep := stPlaceParticipant_shape hpl
        apply ih hres hnr
        intro q hq
        rw [isHandled_of_handled_cons hstep.2.2.1]
        have hqne : q.pk ≠ p.pk := by
          intro hc
          exact hnp (hc ▸ List.mem_map_of_mem (fun p => p.pk) hq)
        rw [if_neg hqne]
        exact hfresh q (List.mem_cons_of_mem _ hq)

/-- C3 counterexample: `place_participant` performs no check of the
subject's own resolved state, so invoking it again for a participant who is
already marked resolved is not a no-op — here the already-resolved,
unplaced driver gets seated by the re-invocation. -/
theorem C3_counterexample :
    exStHandledD.isHandled exD.pk = true ∧
    seatedOn exStHandledD.db exD.pk exT.pk = false ∧
    (wsPlaceParticipant exCtx exD exStHandledD).map
      (fun st1 => seatedOn st1.db exD.pk exT.pk) = some true := by
  decide

/-- C3 (amended): within one completed run (season or single-trip), each
participant id is marked resolved at most once: the run starts from an
empty per-run resolution state, each `place_participant` invocation
appends exactly one resolution mark — its own subject's — and the run
loop enumerates ranked participants whose pks are pairwise distinct, so
the ghost event list of `mark_handled` calls has no duplicates and no
participant is already marked resolved at the moment its own invocation
starts.  The run loops perform no resolved-state check of their own (the
only `handled` lookups inside `place_participant` consult the partner),
so this is a consequence of pk-distinctness, not of a guard; accordingly,
the counterexample shows an explicit re-invocation on an already-resolved
participant is not a no-op. -/
theorem C3_amended_resolution_idempotence (ctx : RankerCtx) (noon : Int) (db : DB)
    (trip : Trip) (ranked : List Participant) (st0 : EngSt)
    (hnodupW : ((ws_ranked ctx db).map (fun p => p.pk)).Nodup)
    (hsomeW : (wsRun ctx noon db).isSome = true)
    (hh0 : st0.handled = []) (hm0 : st0.marks = [])
    (hnodupS : (ranked.map (fun p => p.pk)).Nodup)
    (hsomeS : (stRunAll trip st0 ranked).isSome = true) :
    (wsRun ctx noon db).all (fun st1 => decide st1.marks.Nodup) = true ∧
    wsAllFresh ctx { db := db, log := [], handled := [], marks := [] }
      (ws_ranked ctx db) = true ∧
    (stRunAll trip st0 ranked).all (fun st2 => decide st2.marks.Nodup) = true ∧
    stAllFresh trip st0 ranked = true := by
  have hfresh0 : ∀ (st : EngSt), st.handled = [] → ∀ pk2, st.isHandled pk2 = false := by
    intro st hst pk2
    unfold EngSt.isHandled
    rw [hst]
    rfl
  refine ⟨?_, ?_, ?_, ?_⟩
  · cases hrun : wsRun ctx noon db with
    | none => rfl
    | some st1 =>
      unfold wsRun at hrun
      cases hass : wsAssignTrips ctx { db := db, log := [], handled := [], marks := [] }
          (ws_ranked ctx db) with
      | none =>
        rw [hass] at hrun
        exact Option.noConfusion hrun
      | some stA =>
        rw [hass] at hrun
        simp only [Option.some.injEq] at hrun
        subst hrun
        simp only [Option.all_some, free_for_all_marks]
        rw [decide_eq_true_eq]
        have hmarks : stA.marks = [] ++ (ws_ranked ctx db).map (fun p => p.pk) :=
          (wsAssignTrips_spec hass).2.2.1
        rw [hmarks]
        simpa using hnodupW
  · cases hass : wsAssignTrips ctx { db := db, log := [], handled := [], marks := [] }
        (ws_ranked ctx db) with
    | none =>
      unfold wsRun at hsomeW
      rw [hass] at hsomeW
      simp at hsomeW
    | some stA =>
      exact wsAssignTrips_fresh hass hnodupW (fun p _ => hfresh0 _ rfl p.pk)
  · cases hrun : stRunAll trip st0 ranked with
    | none =>
      rw [hrun] at hsomeS
      simp at hsomeS
    | some st2 =>
      simp only [Option.all_some]
      rw [decide_eq_true_eq]
      have hmarks : st2.marks = st0.marks ++ ranked.map (fun p => p.pk) :=
        (stRunAll_spec hrun).2.2.1
      rw [hmarks, hm0]
      simpa using hnodupS
  · cases hrun : stRunAll trip st0 ranked with
    | none =>
      rw [hrun] at hsomeS
      simp at hsomeS
    | some st2 =>
      exact stRunAll_fresh hrun hnodupS (fun p _ => hfresh0 st0 hh0 p.pk)

/-- Witness for the amended C3 on the example worlds. -/
theorem C3_amended_resolution_idempotence_witness :
    (wsRun exCtx 777 exDB).all (fun st1 => decide st1.marks.Nodup) = true ∧
    wsAllFresh exCtx { db := exDB, log := [], handled := [], marks := [] }
      (ws_ranked exCtx exDB) = true ∧
    (stRunAll exT exSt0 [exP, exQ, exD]).all (fun st2 => decide st2.marks.Nodup) = true ∧
    stAllFresh exT exSt0 [exP, exQ, exD] = true :=
  C3_amended_resolution_idempotence exCtx 777 exDB exT [exP, exQ, exD] exSt0
    (by decide) (by decide) (by decide) (by decide) (by decide) (by decide)

theorem seatedOn_congr {db1 db2 : DB} (h : db1.signups = db2.signups) (a T : Nat) :
    seatedOn db1 a T = seatedOn db2 a T := by
  unfold seatedOn
  rw [h]

theorem seatedOn_off_preserved {db : DB} {a T : Nat} (h : seatedOn db a T = false)
    (pk0 : Nat) : seatedOn (db.setOnTrip pk0 false) a T = false := by
  unfold seatedOn at *
  rw [setOnTrip_signups, List.any_map, List.any_eq_false]
  rw [List.any_eq_false] at h
  intro s hs
  have hsf := h s hs
  by_cases hc : s.pk = pk0
  · simp [hc]
  · simpa [hc] using hsf

theorem seatedOn_false_of_allOff {db : DB} {x : Nat}
    (hoff : ∀ s ∈ db.signups, s.participant = x → s.on_trip = false) (T : Nat) :
    seatedOn db x T = false := by
  unfold seatedOn
  rw [List.any_eq_false]
  intro s hs
  simp only [Bool.and_eq_true, beq_iff_eq, not_and]
  intro hpq
  rw [hoff s hs hpq.1]
  simp

theorem try_to_place_false_eq {sel : DB → Trip → Option SignUp} {h : Handler}
    {st : EngSt} {su : SignUp} {st2 : EngSt}
    (hres : try_to_place sel h st su = some (st2, false)) : st2 = st := by
  cases hft : st.db.findTrip su.trip with
  | none =>
    simp only [try_to_place, hft] at hres
    exact Option.noConfusion hres
  | some trip =>
    simp only [try_to_place, hft] at hres
    by_cases hopen : h.slots_needed ≤ st.db.open_slots trip
    · rw [if_pos hopen] at hres
      cases hpa : place_all_on_trip h st su with
      | none => rw [hpa] at hres; simp at hres
      | some stX => rw [hpa] at hres; simp at hres
    · rw [if_neg hopen] at hres
      cases hguard : (h.is_driver && st.db.open_slots trip == 0 && !h.paired)
      · simp only [hguard, Bool.false_eq_true, if_false, Option.some.injEq,
          Prod.mk.injEq] at hres
        exact hres.1.symm
      · simp only [hguard, if_true] at hres
        by_cases hqd : count_drivers_on_trip st.db trip < h.min_drivers
        · rw [if_pos hqd] at hres
          simp only [EngSt.logInfo] at hres
          cases hsel : sel st.db trip with
          | none =>
            simp only [hsel] at hres
            exact Option.noConfusion hres
          | some b =>
            simp only [hsel, Option.some.injEq, Prod.mk.injEq] at hres
            exact absurd hres.2 (by simp)
        · rw [if_neg hqd] at hres
          simp only [Option.some.injEq, Prod.mk.injEq] at hres
          exact hres.1.symm

theorem try_success_paired_eq {sel : DB → Trip → Option SignUp} {h : Handler}
    {st : EngSt} {su : SignUp} {st2 : EngSt} {q : Participant}
    (hp : h.paired = true) (hq : h.paired_par = some q)
    (hres : try_to_place sel h st su = some (st2, true)) :
    ∃ ps, (st.db.setOnTrip su.pk true).findSignup q.pk su.trip = some ps ∧
      st2.db = (st.db.setOnTrip su.pk true).setOnTrip ps.pk true := by
  cases hft : st.db.findTrip su.trip with
  | none =>
    simp only [try_to_place, hft] at hres
    exact Option.noConfusion hres
  | some trip =>
    simp only [try_to_place, hft] at hres
    by_cases hopen : h.slots_needed ≤ st.db.open_slots trip
    · rw [if_pos hopen] at hres
      cases hpa : place_all_on_trip h st su with
      | none => rw [hpa] at hres; simp at hres
      | some stX =>
        rw [hpa] at hres
        simp only [Option.map_some', Option.some.injEq, Prod.mk.injEq] at hres
        obtain ⟨h1, -⟩ := hres
        subst h1
        simp only [place_all_on_trip, hp, if_true, hq] at hpa
        cases hfs : (st.place_on_trip su).db.findSignup q.pk su.trip with
        | none =>
          simp only [hfs] at hpa
          exact Option.noConfusion hpa
        | some ps =>
          simp only [hfs, Option.some.injEq] at hpa
          refine ⟨ps, ?_, ?_⟩
          · rw [place_on_trip_db] at hfs
            exact hfs
          · rw [← hpa]
            simp only [place_on_trip_db]
    · rw [if_neg hopen] at hres
      have hguard : (h.is_driver && st.db.open_slots trip == 0 && !h.paired) = false := by
        simp [hp]
      simp only [hguard, Bool.false_eq_true, if_false, Option.some.injEq,
        Prod.mk.injEq] at hres
      exact absurd hres.2 (by simp)

theorem wsWaitlistAll_off {h : Handler} {favTrip : Nat} {tn : String}
    {pars : List Participant} {st st1 : EngSt} {x : Nat}
    (hres : wsWaitlistAll h favTrip tn st pars = some st1)
    (hoff : ∀ T, seatedOn st.db x T = false) :
    ∀ T, seatedOn st1.db x T = false := by
  induction pars generalizing st with
  | nil =>
    simp only [wsWaitlistAll, Option.some.injEq] at hres
    subst hres
    exact hoff
  | cons par rest ih =>
    simp only [wsWaitlistAll] at hres
    cases hfs : st.db.findSignup par.pk favTrip with
    | none =>
      simp only [hfs] at hres
      exact Option.noConfusion hres
    | some fsu =>
      simp only [hfs] at hres
      apply ih hres
      intro T
      show seatedOn (add_to_waitlist st.db fsu false) x T = false
      rw [seatedOn_congr (add_to_waitlist_signups_as_setOnTrip st.db fsu false)]
      exact seatedOn_off_preserved (hoff T) fsu.pk

theorem future_signups_facts {today : Int} {db : DB} {h : Handler} {p : Participant}
    (hp : h.paired = true) (hq : h.paired_par = some p) :
    ∀ su ∈ future_signups today db h,
      su ∈ db.signups ∧ su.participant = h.participant.pk ∧
      (db.findSignup p.pk su.trip).isSome = true := by
  intro su hsu
  unfold future_signups at hsu
  simp only [hp, if_true, hq] at hsu
  have hsu2 := (List.perm_insertionSort signupOrdLe _).mem_iff.mp hsu
  rw [List.mem_filter] at hsu2
  obtain ⟨hsu3, hany⟩ := hsu2
  rw [List.mem_filter] at hsu3
  obtain ⟨hmem, hmain⟩ := hsu3
  rw [Bool.and_eq_true] at hmain
  refine ⟨hmem, by simpa using hmain.1, ?_⟩
  rw [List.any_eq_true] at hany
  obtain ⟨s2, hs2mem, hs2⟩ := hany
  unfold DB.findSignup
  rw [List.find?_isSome]
  exact ⟨s2, hs2mem, hs2⟩

theorem bool_eq_of_iff {a b : Bool} (h : a = true ↔ b = true) : a = b := by
  cases a <;> cases b <;> simp_all

theorem seatedOn_two_sets (db : DB) (a b x T : Nat) :
    seatedOn ((db.setOnTrip a true).setOnTrip b true) x T =
      db.signups.any (fun s => s.participant == x && s.trip == T &&
        (s.on_trip || s.pk == a || s.pk == b)) := by
  unfold seatedOn
  rw [setOnTrip_signups, setOnTrip_signups, List.map_map, List.any_map]
  congr 1
  funext s
  simp only [Function.comp]
  by_cases h1 : s.pk = a
  · by_cases h2 : s.pk = b
    · have hab : a = b := h1.symm.trans h2
      subst hab
      simp [h1]
    · have hab : a ≠ b := fun hc => h2 (h1.trans hc)
      simp [h1, hab]
  · by_cases h2 : s.pk = b
    · have hba : b ≠ a := fun hc => h1 (h2.trans hc)
      simp [h1, h2, hba]
    · have ha : (s.pk == a) = false := beq_eq_false_iff_ne.mpr h1
      have hb : (s.pk == b) = false := beq_eq_false_iff_ne.mpr h2
      simp [ha, hb]

theorem pair_seated_after {db : DB} {su ps : SignUp} {p q : Participant}
    (hnodup : (db.signups.map (fun s => s.pk)).Nodup)
    (hsu_mem : su ∈ db.signups) (hsu_part : su.participant = q.pk)
    (hps : (db.setOnTrip su.pk true).findSignup p.pk su.trip = some ps)
    (hinit : ∀ s ∈ db.signups, (s.participant = p.pk ∨ s.participant = q.pk) →
      s.on_trip = false)
    (hpqne : p.pk ≠ q.pk) (T : Nat) :
    seatedOn ((db.setOnTrip su.pk true).setOnTrip ps.pk true) p.pk T =
      seatedOn ((db.setOnTrip su.pk true).setOnTrip ps.pk true) q.pk T := by
  have hpsspec := findSignup_spec hps
  have hpsmem1 : ps ∈ (db.setOnTrip su.pk true).signups := findSignup_mem hps
  rw [setOnTrip_signups] at hpsmem1
  obtain ⟨ps0, hps0mem, hps0eq⟩ := List.mem_map.mp hpsmem1
  have hps0 : ps0.pk = ps.pk ∧ ps0.participant = ps.participant ∧
      ps0.trip = ps.trip := by
    by_cases hc : ps0.pk = su.pk
    · simp only [hc, beq_self_eq_true, if_true] at hps0eq
      rw [← hps0eq]
      exact ⟨hc, rfl, rfl⟩
    · simp [hc] at hps0eq
      rw [← hps0eq]
      exact ⟨rfl, rfl, rfl⟩
  have hps0part : ps0.participant = p.pk := hps0.2.1.trans hpsspec.1
  have hps0trip : ps0.trip = su.trip := hps0.2.2.trans hpsspec.2
  have hside : ∀ (x : Nat) (w : SignUp), w ∈ db.signups → w.participant = x →
      w.trip = su.trip → (x = p.pk ∨ x = q.pk) →
      (w.pk = su.pk ∨ w.pk = ps.pk) →
      (db.signups.any (fun s => s.participant == x && s.trip == T &&
        (s.on_trip || s.pk == su.pk || s.pk == ps.pk)) = true ↔ T = su.trip) := by
    intro x w hwmem hwpart hwtrip hx hwpk
    constructor
    · rw [List.any_eq_true]
      rintro ⟨s, hsmem, hspred⟩
      simp only [Bool.and_eq_true, Bool.or_eq_true, beq_iff_eq] at hspred
      obtain ⟨⟨hsx, hsT⟩, hor⟩ := hspred
      have hsoff : s.on_trip = false := hinit s hsmem
        (hx.elim (fun h => Or.inl (hsx.trans h)) (fun h => Or.inr (hsx.trans h)))
      rcases hor with (hon | hpk1) | hpk2
      · rw [hsoff] at hon
        exact absurd hon (by simp)
      · have hseq : s = su := pk_inj hnodup hsmem hsu_mem hpk1
        rw [hseq] at hsx hsT
        cases hx with
        | inl hxp =>
          have hc : q.pk = p.pk := hsu_part.symm.trans (hsx.trans hxp)
          exact absurd hc.symm hpqne
        | inr hxq => exact hsT.symm
      · have hseq : s = ps0 := pk_inj hnodup hsmem hps0mem (hpk2.trans hps0.1.symm)
        rw [hseq] at hsx hsT
        cases hx with
        | inl hxp => exact (hps0trip ▸ hsT).symm
        | inr hxq =>
          exact absurd (hps0part.symm.trans (hsx.trans hxq)) hpqne
    · intro hT
      rw [List.any_eq_true]
      refine ⟨w, hwmem, ?_⟩
      simp only [Bool.and_eq_true, Bool.or_eq_true, beq_iff_eq]
      exact ⟨⟨hwpart, hwtrip.trans hT.symm⟩,
        hwpk.elim (fun h => Or.inl (Or.inr h)) Or.inr⟩
  have h1 := hside p.pk ps0 hps0mem hps0part hps0trip (Or.inl rfl) (Or.inr hps0.1)
  have h2 := hside q.pk su hsu_mem hsu_part rfl (Or.inr rfl) (Or.inl rfl)
  rw [seatedOn_two_sets, seatedOn_two_sets]
  exact bool_eq_of_iff (h1.trans h2.symm)

theorem wsPlaceLoop_pair_atomic {ctx : RankerCtx} {h : Handler} {p q : Participant}
    {fs : List SignUp} {st st2 : EngSt} {r : Bool}
    (hp : h.paired = true) (hq : h.paired_par = some p) (hpqne : p.pk ≠ q.pk)
    (hres : wsPlaceLoop ctx h st fs = some (st2, r))
    (hfs : ∀ su ∈ fs, su ∈ st.db.signups ∧ su.participant = q.pk)
    (hnodup : (st.db.signups.map (fun s => s.pk)).Nodup)
    (hinit : ∀ s ∈ st.db.signups, (s.participant = p.pk ∨ s.participant = q.pk) →
      s.on_trip = false) :
    (r = true → ∀ T, seatedOn st2.db p.pk T = seatedOn st2.db q.pk T) ∧
    (r = false → st2.db = st.db) := by
  induction fs generalizing st with
  | nil =>
    simp only [wsPlaceLoop, Option.some.injEq, Prod.mk.injEq] at hres
    obtain ⟨h1, h2⟩ := hres
    subst h1
    constructor
    · intro hr
      rw [← h2] at hr
      exact absurd hr (by simp)
    · intro _
      rfl
  | cons su rest ih =>
    simp only [wsPlaceLoop] at hres
    cases htp : try_to_place (lowest_non_driver ctx) h st su with
    | none =>
      simp only [htp] at hres
      exact Option.noConfusion hres
    | some pr =>
      obtain ⟨stA, rA⟩ := pr
      cases rA with
      | false =>
        simp only [htp] at hres
        have heq : stA = st := try_to_place_false_eq htp
        subst heq
        have hrec := ih hres
          (fun su2 hsu2 => hfs su2 (List.mem_cons_of_mem _ hsu2))
          hnodup hinit
        exact ⟨hrec.1, fun hr => (hrec.2 hr).trans rfl⟩
      | true =>
        simp only [htp, Option.some.injEq, Prod.mk.injEq] at hres
        obtain ⟨h1, h2⟩ := hres
        subst h1
        constructor
        · intro _
          obtain ⟨ps, hps, hdb⟩ := try_success_paired_eq hp hq htp
          have hsu := hfs su (List.mem_cons_self su rest)
          intro T
          rw [hdb]
          exact pair_seated_after hnodup hsu.1 hsu.2 hps hinit hpqne T
        · intro hr
          rw [← h2] at hr
          exact absurd hr (by simp)

/-- C2: counterexample.  In the example world, `exP` and `exQ` are an
honored reciprocal pair and both hold signups on the lottery trip `10`,
yet after a full winter-school run `exP` (pk `1`) is seated on trip `10`
while `exQ` (pk `2`) is not: the driver `exD` fires the bump branch and
`lowest_non_driver` selects the already-seated pair member `exQ`, splitting
the pair.  So the claimed run-wide pairing atomicity fails on the code. -/
theorem C2_counterexample :
    reciprocally_paired exDB exP = true ∧
    pairedParOf exDB exP = some exQ ∧
    exP.pk = 1 ∧ exQ.pk = 2 ∧
    (wsRun exCtx 777 exDB).map
      (fun st => (seatedOn st.db 1 10, seatedOn st.db 2 10)) = some (true, false) := by
  decide

/-- C2 (amended): pairing atomicity holds at the level of a single
`place_participant` step.  When the second member `q` of an honored
reciprocal pair is processed (its partner `p` already resolved), with
distinct pks, pk-distinct signup rows, and neither member seated
beforehand, then after the step `p` is seated on a trip if and only if `q`
is: the capacity path seats both members together, and the
no-trip-open fallback waitlists both, seating neither.  (The run-wide
statement is false because the later driver-bump path can unseat one
member of an already-seated pair; see the counterexample.) -/
theorem C2_amended_pair_step_atomicity (ctx : RankerCtx) (st : EngSt)
    (p q : Participant)
    (hpaired : (mkWSHandler st.db q).paired = true)
    (hppar : (mkWSHandler st.db q).paired_par = some p)
    (hpqne : p.pk ≠ q.pk)
    (hhandled : st.isHandled p.pk = true)
    (hnodup : (st.db.signups.map (fun s => s.pk)).Nodup)
    (hinit : ∀ s ∈ st.db.signups, (s.participant = p.pk ∨ s.participant = q.pk) →
      s.on_trip = false)
    (hsome : (wsPlaceParticipant ctx q st).isSome = true) :
    (wsPlaceParticipant ctx q st).map (fun st1 =>
      st1.db.signups.all (fun s =>
        seatedOn st1.db p.pk s.trip == seatedOn st1.db q.pk s.trip)) = some true := by
  cases hrun : wsPlaceParticipant ctx q st with
  | none =>
    rw [hrun] at hsome
    exact absurd hsome (by simp)
  | some st1 =>
    have hcore : wsPlaceCore ctx q (mkWSHandler st.db q)
        (st.logInfo (q.name ++ " is paired with " ++ p.name)) = some st1 := by
      have hrun2 := hrun
      unfold wsPlaceParticipant at hrun2
      simp only [hpaired, if_true, hppar, isHandled_logInfo, hhandled,
        Bool.not_true, Bool.false_eq_true, if_false] at hrun2
      exact hrun2
    have hiff : ∀ T, seatedOn st1.db p.pk T = seatedOn st1.db q.pk T := by
      have hc := hcore
      unfold wsPlaceCore at hc
      simp only [logInfo_db] at hc
      cases hfs2 : future_signups ctx.today st.db (mkWSHandler st.db q) with
      | nil =>
        simp only [hfs2, List.isEmpty_nil, if_true] at hc
        have hdb : st1.db = st.db :=
          (congrArg EngSt.db (Option.some.inj hc).symm).trans rfl
        intro T
        rw [hdb]
        rw [seatedOn_false_of_allOff (fun s hs hp2 => hinit s hs (Or.inl hp2)) T,
            seatedOn_false_of_allOff (fun s hs hp2 => hinit s hs (Or.inr hp2)) T]
      | cons fav fsrest =>
        simp only [hfs2, List.isEmpty_cons, Bool.false_eq_true, if_false] at hc
        cases hloop : wsPlaceLoop ctx (mkWSHandler st.db q)
            (st.logInfo (q.name ++ " is paired with " ++ p.name))
            (fav :: fsrest) with
        | none =>
          rw [hloop] at hc
          exact Option.noConfusion hc
        | some pr =>
          obtain ⟨stL, rL⟩ := pr
          have hfs3 : ∀ su ∈ fav :: fsrest,
              su ∈ st.db.signups ∧ su.participant = q.pk := by
            intro su hsu
            rw [← hfs2] at hsu
            have hf := future_signups_facts hpaired hppar su hsu
            exact ⟨hf.1, hf.2.1⟩
          have hatomic := wsPlaceLoop_pair_atomic hpaired hppar hpqne hloop
            hfs3 hnodup hinit
          cases rL with
          | true =>
            rw [hloop] at hc
            simp only [] at hc
            have hdb : st1.db = stL.db :=
              (congrArg EngSt.db (Option.some.inj hc).symm).trans rfl
            intro T
            rw [hdb]
            exact hatomic.1 rfl T
          | false =>
            rw [hloop] at hc
            simp only [] at hc
            have hLdb : stL.db = st.db := hatomic.2 rfl
            split at hc
            · exact Option.noConfusion hc
            · rename_i st4 hwl
              have hdb : st1.db = st4.db :=
                (congrArg EngSt.db (Option.some.inj hc).symm).trans rfl
              have hoffp : ∀ T, seatedOn st4.db p.pk T = false := by
                apply wsWaitlistAll_off hwl
                intro T
                show seatedOn stL.db p.pk T = false
                rw [hLdb]
                exact seatedOn_false_of_allOff
                  (fun s hs hp2 => hinit s hs (Or.inl hp2)) T
              have hoffq : ∀ T, seatedOn st4.db q.pk T = false := by
                apply wsWaitlistAll_off hwl
                intro T
                show seatedOn stL.db q.pk T = false
                rw [hLdb]
                exact seatedOn_false_of_allOff
                  (fun s hs hp2 => hinit s hs (Or.inr hp2)) T
              intro T
              rw [hdb, hoffp T, hoffq T]
    simp only [Option.map_some', Option.some.injEq]
    rw [List.all_eq_true]
    intro s _
    rw [hiff s.trip]
    simp

theorem C2_amended_pair_step_atomicity_witness :
    ((mkWSHandler exStHandledP.db exQ).paired = true ∧
     (mkWSHandler exStHandledP.db exQ).paired_par = some exP ∧
     exP.pk ≠ exQ.pk ∧
     exStHandledP.isHandled exP.pk = true ∧
     (exStHandledP.db.signups.map (fun s => s.pk)).Nodup ∧
     (∀ s ∈ exStHandledP.db.signups,
       (s.participant = exP.pk ∨ s.participant = exQ.pk) → s.on_trip = false) ∧
     (wsPlaceParticipant exCtx exQ exStHandledP).isSome = true) ∧
    (wsPlaceParticipant exCtx exQ exStHandledP).map (fun st1 =>
      st1.db.signups.all (fun s =>
        seatedOn st1.db exP.pk s.trip == seatedOn st1.db exQ.pk s.trip)) = some true :=
  ⟨by decide,
   C2_amended_pair_step_atomicity exCtx exStHandledP exP exQ (by decide) (by decide)
     (by decide) (by decide) (by decide) (by decide) (by decide)⟩
